import Mathlib

/-!
Verification of the data-handling core of the sn_node repository.

The development shallowly embeds the three subsystems that the claims are
about:

* the Elder-side `BlobRegister`
  (src/src/node/elder_duties/data_section/metadata/blob_register.rs),
* the Adult-side `ChunkStorage` (src/src/chunks/chunk_storage.rs),
* the message dispatcher (src/src/node/duty_finder.rs).

Modelling conventions:

* 256-bit `XorName` identifiers and public keys are modelled as `Nat`;
  the XOR metric is `Nat` bitwise xor.
* Rust `BTreeSet` is modelled as `Finset`; where the source iterates over a
  `BTreeSet` (ascending key order) the model iterates over `sortedList`,
  a kernel-reducible ascending enumeration of the `Finset`.
* The pickledb key-value stores are modelled as functions into `Option`;
  a `set`/`rem` is a pointwise update.  Database writes always succeed in
  the model: the claims about the indices condition on every write
  succeeding, and the source ignores write errors everywhere except for
  logging.
* Cryptographic primitives and message-id derivation live in external
  crates (tiny_keccak, safe_nd, sn_messaging); they enter the model as an
  uninterpreted parameter record `ExternalFns`.  The random
  `MessageId::new()` used by the BlobRegister is modelled by an explicit
  `fresh` argument threaded into each operation.
* `ElderMsgWrapping` (src/node/msg_wrapping.rs, not part of the sources)
  only packages a message for transport; it is modelled as emitting the
  message unchanged (`MessagingDuty.send`) and forwarding envelopes
  (`MessagingDuty.sendToAdults`), per spec section 4.4 and 6.
-/

namespace SnNode

abbrev XorName := Nat
abbrev PublicKey := Nat
abbrev MessageId := Nat

/-- safe_nd `BlobAddress`: a public or private (unpublished) blob address. -/
inductive BlobAddress
  | pub (name : Nat)
  | unpub (name : Nat)
  deriving DecidableEq

namespace BlobAddress

def name : BlobAddress → XorName
  | .pub n => n
  | .unpub n => n

def is_pub : BlobAddress → Bool
  | .pub _ => true
  | .unpub _ => false

def is_unpub (a : BlobAddress) : Bool := !a.is_pub

/-- Injective key used only to give `BlobAddress` a linear order mirroring
the derived `Ord` of the Rust enum (so that `BTreeSet` iteration can be
modelled by a sorted enumeration). -/
def key : BlobAddress → Nat
  | .pub n => 2 * n
  | .unpub n => 2 * n + 1

end BlobAddress

instance : LinearOrder BlobAddress :=
  LinearOrder.lift' BlobAddress.key (by
    intro a b h
    cases a <;> cases b <;> simp only [BlobAddress.key] at h
    · exact congrArg BlobAddress.pub (by omega)
    · exact absurd h (by omega)
    · exact absurd h (by omega)
    · exact congrArg BlobAddress.unpub (by omega))

/-- An immutable chunk (safe_nd / sn_data_types `Blob`): public or private;
private blobs carry an owner public key.  The content bytes are carried so
that the Adult-side store is content-bearing; the content-hash derivation
of the address is an external primitive and not needed by any claim. -/
inductive Blob
  | pubBlob (name : Nat) (value : List Nat)
  | privBlob (name : Nat) (value : List Nat) (blobOwner : Nat)
  deriving DecidableEq

namespace Blob

def address : Blob → BlobAddress
  | .pubBlob n _ => .pub n
  | .privBlob n _ _ => .unpub n

def name (b : Blob) : XorName := b.address.name

def is_pub : Blob → Bool
  | .pubBlob _ _ => true
  | .privBlob _ _ _ => false

def is_private (b : Blob) : Bool := !b.is_pub

def owner : Blob → Option PublicKey
  | .pubBlob _ _ => none
  | .privBlob _ _ o => some o

end Blob

section SortedList

variable {α : Type} [LinearOrder α]

/-- Ascending enumeration of a `Finset` (the iteration order of a Rust
`BTreeSet`), kernel-reducible unlike `Finset.sort`. -/
def sortedList (s : Finset α) : List α :=
  Quot.liftOn s.1 (List.insertionSort (· ≤ ·)) (by
    intro l₁ l₂ hperm
    exact List.eq_of_perm_of_sorted
      ((List.perm_insertionSort _ l₁).trans (hperm.trans (List.perm_insertionSort _ l₂).symm))
      (List.sorted_insertionSort _ l₁) (List.sorted_insertionSort _ l₂))

end SortedList

/-- Pointwise update of a key-value store (a pickledb `set`; `rem` is the
update to `none`). -/
def updF {α β : Type} [DecidableEq α] (f : α → Option β) (a : α) (v : Option β) :
    α → Option β :=
  fun b => if b = a then v else f b

/-- blob_register.rs `ChunkMetadata`: per chunk address, the set of holders
and the optional owner. -/
structure ChunkMetadata where
  holders : Finset XorName
  owner : Option PublicKey
  deriving DecidableEq

/-- blob_register.rs `HolderMetadata`: per holder, the chunk addresses the
Elder believes it holds. -/
structure HolderMetadata where
  chunks : Finset BlobAddress
  deriving DecidableEq

/-- The persisted state of the `BlobRegister`: the two metadata databases
(immutable_data.db, holder_data.db) and the full-adults set
(full_adults.db).  The source declares `full_adults` with
`#[allow(unused)]` and never reads or writes it. -/
structure RegState where
  metadata : BlobAddress → Option ChunkMetadata
  holders : XorName → Option HolderMetadata
  full_adults : Finset XorName

/-- The empty freshly-initialised register (all three databases empty). -/
def initState : RegState := ⟨fun _ => none, fun _ => none, ∅⟩

/-- The replication constants of blob_register.rs. -/
def CHUNK_COPY_COUNT : Nat := 4

def CHUNK_ADULT_COPY_COUNT : Nat := 3

/-- blob_register.rs `get_metadata_for`: `Ok` only when the entry exists
and its holder set is non-empty (both failure branches yield
`Err(NoSuchData)`, modelled as `none`). -/
def get_metadata_for (st : RegState) (address : BlobAddress) : Option ChunkMetadata :=
  (st.metadata address).bind (fun md => if md.holders = ∅ then none else some md)

/-- blob_register.rs `get_holder`: `Ok` only when the entry exists and its
chunk set is non-empty. -/
def get_holder (st : RegState) (holder : XorName) : Option HolderMetadata :=
  (st.holders holder).bind (fun hm => if hm.chunks = ∅ then none else some hm)

/-- The section view consumed through the `SectionQuerying` capability
(spec section 6): the current Adults and Elders of the section. -/
structure SectionView where
  adults : List XorName
  elders : List XorName

/-- Ordering by XOR distance to `t`, ties broken by identifier order
(spec section 4.2.6; ties cannot actually occur between distinct names). -/
def xorDistLe (t a b : XorName) : Prop :=
  a ^^^ t < b ^^^ t ∨ (a ^^^ t = b ^^^ t ∧ a ≤ b)

instance (t a b : XorName) : Decidable (xorDistLe t a b) := by
  unfold xorDistLe
  infer_instance

def sortByDistanceTo (t : XorName) (l : List XorName) : List XorName :=
  List.insertionSort (xorDistLe t) l

/-- Capability `our_adults_sorted_by_distance_to(target, take)`: at most
`k` section Adults, closest first. -/
def our_adults_sorted_by_distance_to (sec : SectionView) (t : XorName) (k : Nat) :
    List XorName :=
  (sortByDistanceTo t sec.adults).take k

/-- Capability `our_elder_names_sorted_by_distance_to(target, take)`. -/
def our_elder_names_sorted_by_distance_to (sec : SectionView) (t : XorName) (k : Nat) :
    List XorName :=
  (sortByDistanceTo t sec.elders).take k

/-- blob_register.rs `get_holders_for_chunk`: the closest
`CHUNK_ADULT_COPY_COUNT` Adults, topped up with closest Elders when fewer
than `CHUNK_COPY_COUNT` targets result.  The `st` parameter mirrors
`&self`; note that the function never consults `st.full_adults`, exactly
as the source never touches the `full_adults` database. -/
def get_holders_for_chunk (_st : RegState) (sec : SectionView) (target : XorName) :
    List XorName :=
  let closest_adults := our_adults_sorted_by_distance_to sec target CHUNK_ADULT_COPY_COUNT
  if closest_adults.length < CHUNK_COPY_COUNT then
    closest_adults ++
      our_elder_names_sorted_by_distance_to sec target
        (CHUNK_COPY_COUNT - closest_adults.length)
  else
    closest_adults

/-- blob_register.rs `set_chunk_holder`: load-or-default both metadata
records, set the owner for private addresses, insert, persist.  The
source reads the holder record after writing the chunk record; since the
chunk write does not touch the holder database the two reads coincide. -/
def set_chunk_holder (blob_address : BlobAddress) (holder : XorName)
    (origin : PublicKey) (st : RegState) : RegState :=
  { metadata :=
      updF st.metadata blob_address
        (some
          ⟨insert holder ((get_metadata_for st blob_address).getD ⟨∅, none⟩).holders,
            if blob_address.is_unpub then some origin
            else ((get_metadata_for st blob_address).getD ⟨∅, none⟩).owner⟩)
    holders :=
      updF st.holders holder
        (some ⟨insert blob_address ((get_holder st holder).getD ⟨∅⟩).chunks⟩)
    full_adults := st.full_adults }

/-- First half of blob_register.rs `remove_chunk_holder`: remove the chunk
from the holder record (deleting the record when it empties); nothing
happens when `get_holder` fails. -/
def rch_holder_side (blob_address : BlobAddress) (holder_name : XorName)
    (st : RegState) : RegState :=
  match get_holder st holder_name with
  | none => st
  | some hm =>
    if hm.chunks.erase blob_address = ∅ then
      { st with holders := updF st.holders holder_name none }
    else
      { st with holders := updF st.holders holder_name (some ⟨hm.chunks.erase blob_address⟩) }

/-- Second half of blob_register.rs `remove_chunk_holder`: remove the
holder from the chunk record read at entry (deleting the record when it
empties). -/
def rch_meta_side (blob_address : BlobAddress) (holder_name : XorName)
    (md : ChunkMetadata) (st : RegState) : RegState :=
  if md.holders.erase holder_name = ∅ then
    { st with metadata := updF st.metadata blob_address none }
  else
    { st with metadata := updF st.metadata blob_address (some ⟨md.holders.erase holder_name, md.owner⟩) }

/-- blob_register.rs `remove_chunk_holder`: drop the chunk from the holder
record and the holder from the chunk record, deleting either record when
it becomes empty.  Nothing happens when the chunk metadata is absent.
The chunk metadata is read once at entry, exactly as in the source. -/
def remove_chunk_holder (blob_address : BlobAddress) (holder_name : XorName)
    (st : RegState) : RegState :=
  match get_metadata_for st blob_address with
  | none => st
  | some md => rch_meta_side blob_address holder_name md (rch_holder_side blob_address holder_name st)

/-- blob_register.rs `update_holders` (duplication completion): insert the
holder into both indices unconditionally; the `result` and `message_id`
arguments are unused by the source except for logging. -/
def update_holders (address : BlobAddress) (holder : XorName)
    (_result : Option Unit) (_message_id : MessageId) (st : RegState) : RegState :=
  { metadata :=
      updF st.metadata address
        (some
          ⟨insert holder ((get_metadata_for st address).getD ⟨∅, none⟩).holders,
            ((get_metadata_for st address).getD ⟨∅, none⟩).owner⟩)
    holders :=
      updF st.holders holder
        (some ⟨insert address ((get_holder st holder).getD ⟨∅⟩).chunks⟩)
    full_adults := st.full_adults }

/-- The data errors surfaced by the BlobRegister (safe_nd `Error`). -/
inductive NdError
  | noSuchData
  | dataExists
  | accessDenied
  deriving DecidableEq

/-- External primitives: `sha3_concat a h` models
`sha3_256(a.name().0 ∥ h.0)` of tiny_keccak over the concatenation of the
two 32-byte names, and `in_response_to` models sn_messaging
`MessageId::in_response_to` (a derivation from an existing id).  Both are
out-of-scope cryptographic collaborators, so they stay uninterpreted. -/
structure ExternalFns where
  sha3_concat : XorName → XorName → MessageId
  in_response_to : MessageId → MessageId

/-- The inbound client envelope as seen by the BlobRegister: its message
id and its origin (public key; the `origin.address()` used for the reply
destination is identified with the key). -/
structure ClientMsg where
  id : MessageId
  origin : PublicKey
  deriving DecidableEq

/-- The outbound messages the BlobRegister constructs (safe_nd
`Message::CmdError` and `Message::QueryResponse` with a `GetBlob` error). -/
inductive ElderMsg
  | cmdError (error : NdError) (id : MessageId) (cmd_origin : PublicKey)
      (correlation_id : MessageId)
  | queryResponseGetBlobErr (error : NdError) (id : MessageId) (query_origin : PublicKey)
      (correlation_id : MessageId)
  deriving DecidableEq

/-- The outbound id of an `ElderMsg`. -/
def ElderMsg.msgId : ElderMsg → MessageId
  | .cmdError _ i _ _ => i
  | .queryResponseGetBlobErr _ i _ _ => i

/-- The correlation id of an `ElderMsg`. -/
def ElderMsg.corrId : ElderMsg → MessageId
  | .cmdError _ _ _ c => c
  | .queryResponseGetBlobErr _ _ _ c => c

/-- Modelled from the spec: the outbound directives produced through
`ElderMsgWrapping` (src/node/msg_wrapping.rs is not among the sources).
Per spec sections 4.4 and 6 the wrapping only packages a constructed
message (`send`) or forwards the inbound envelope to a holder set
(`send_to_adults`); the model records the forwarded envelope by its
message id. -/
inductive MessagingDuty
  | send (m : ElderMsg)
  | sendToAdults (targets : Finset XorName) (envelopeId : MessageId)
  deriving DecidableEq

/-- The capped-insertion loop of `store`: walk the closest holders in
ascending `BTreeSet` order, inserting each new name while fewer than
`CHUNK_COPY_COUNT` holders are collected. -/
def addUpTo (existing : Finset XorName) (closest : List XorName) : Finset XorName :=
  closest.foldl
    (fun acc h => if h ∉ acc ∧ acc.card < CHUNK_COPY_COUNT then insert h acc else acc)
    existing

/-- Sequential `set_chunk_holder` calls for each target (ascending
`BTreeSet` order). -/
def applyTargets (address : BlobAddress) (origin : PublicKey) (hs : List XorName)
    (st : RegState) : RegState :=
  hs.foldl (fun s h => set_chunk_holder address h origin s) st

/-- blob_register.rs `store` (write `New(blob)`).  `fresh` models the
random `MessageId::new()` drawn for an error reply. -/
def store (sec : SectionView) (data : Blob) (msg : ClientMsg) (fresh : MessageId)
    (st : RegState) : RegState × Option MessagingDuty :=
  match get_metadata_for st data.address with
  | some md =>
    if md.holders.card = CHUNK_COPY_COUNT then
      if data.is_pub then
        (st, none)
      else
        (st, some (.send (.cmdError .dataExists fresh msg.origin msg.id)))
    else
      let closest := (get_holders_for_chunk st sec data.name).toFinset
      let target_holders := addUpTo md.holders (sortedList closest)
      (applyTargets data.address msg.origin (sortedList target_holders) st,
        some (.sendToAdults target_holders msg.id))
  | none =>
    let target_holders := (get_holders_for_chunk st sec data.name).toFinset
    (applyTargets data.address msg.origin (sortedList target_holders) st,
      some (.sendToAdults target_holders msg.id))

/-- The owner guard shared by `delete` and `get`: some owner is recorded
and it differs from the requesting origin. -/
def ownerMismatch (owner : Option PublicKey) (origin : PublicKey) : Bool :=
  match owner with
  | some data_owner => data_owner != origin
  | none => false

/-- blob_register.rs `delete` (write `DeletePrivate(address)`). -/
def delete (address : BlobAddress) (msg : ClientMsg) (fresh : MessageId)
    (st : RegState) : RegState × Option MessagingDuty :=
  match get_metadata_for st address with
  | none => (st, some (.send (.cmdError .noSuchData fresh msg.origin msg.id)))
  | some md =>
    if ownerMismatch md.owner msg.origin then
      (st, some (.send (.cmdError .accessDenied fresh msg.origin msg.id)))
    else
      ((sortedList md.holders).foldl (fun s h => remove_chunk_holder address h s) st,
        some (.sendToAdults md.holders msg.id))

/-- blob_register.rs `get` (read `Get(address)`). -/
def get (address : BlobAddress) (msg : ClientMsg) (fresh : MessageId) (st : RegState) :
    Option MessagingDuty :=
  match get_metadata_for st address with
  | none => some (.send (.queryResponseGetBlobErr .noSuchData fresh msg.origin msg.id))
  | some md =>
    if ownerMismatch md.owner msg.origin then
      some (.send (.queryResponseGetBlobErr .accessDenied fresh msg.origin msg.id))
    else
      some (.sendToAdults md.holders msg.id)

/-- One iteration of the `remove_holder` loop: erase the departed node
from the chunk record of `a` (deleting the record when it empties) and
record `(a, remaining holders)` in the accumulating output map. -/
def dupStepPair (node : XorName)
    (p : RegState × List (BlobAddress × Finset XorName)) (a : BlobAddress) :
    RegState × List (BlobAddress × Finset XorName) :=
  match get_metadata_for p.1 a with
  | none => p
  | some md =>
    (if md.holders.erase node = ∅ then
        { p.1 with metadata := updF p.1.metadata a none }
      else
        { p.1 with metadata := updF p.1.metadata a (some ⟨md.holders.erase node, md.owner⟩) },
      p.2 ++ [(a, md.holders.erase node)])

/-- blob_register.rs `remove_holder`: snapshot the chunks of the departed
node, remove the node from each chunk record (deleting emptied records),
collect the remaining holders per chunk, and finally delete the holder
record itself (the final deletion happens even when `get_holder` fails). -/
def remove_holder (node : XorName) (st : RegState) :
    RegState × List (BlobAddress × Finset XorName) :=
  match get_holder st node with
  | none => ({ st with holders := updF st.holders node none }, [])
  | some hm =>
    let r := (sortedList hm.chunks).foldl (dupStepPair node) (st, [])
    ({ r.1 with holders := updF r.1.holders node none }, r.2)

/-- blob_register.rs `get_new_holders_for_chunk`: the closest holders not
already holding the chunk. -/
def get_new_holders_for_chunk (st : RegState) (sec : SectionView) (target : BlobAddress) :
    Finset XorName :=
  let closest_holders := (get_holders_for_chunk st sec target.name).toFinset
  match get_metadata_for st target with
  | some md => closest_holders \ md.holders
  | none => closest_holders

/-- A `NodeCmd::Data(DuplicateChunk ...)` emission. -/
structure DupCmd where
  id : MessageId
  new_holder : XorName
  address : BlobAddress
  fetch_from_holders : Finset XorName
  deriving DecidableEq

/-- blob_register.rs `get_duplication_msgs`: one `DuplicateChunk` command
per new holder, with message id `sha3_256(address.name ∥ new_holder)`. -/
def get_duplication_msgs (env : ExternalFns) (sec : SectionView) (st : RegState)
    (address : BlobAddress) (current_holders : Finset XorName) : List DupCmd :=
  (sortedList (get_new_holders_for_chunk st sec address)).map
    (fun new_holder =>
      ⟨env.sha3_concat address.name new_holder, new_holder, address, current_holders⟩)

/-- blob_register.rs `duplicate_chunks` (holder departure). -/
def duplicate_chunks (env : ExternalFns) (sec : SectionView) (node : XorName)
    (st : RegState) : RegState × List DupCmd :=
  let r := remove_holder node st
  (r.1, r.2.flatMap (fun p => get_duplication_msgs env sec r.1 p.1 p.2))

/-- One externally triggered BlobRegister operation, carrying the
section view / message context it arrives with. -/
inductive Op
  | storeOp (sec : SectionView) (data : Blob) (msg : ClientMsg) (fresh : MessageId)
  | deleteOp (address : BlobAddress) (msg : ClientMsg) (fresh : MessageId)
  | dupOp (env : ExternalFns) (sec : SectionView) (node : XorName)
  | updateOp (address : BlobAddress) (holder : XorName) (result : Option Unit)
      (message_id : MessageId)

/-- Whether an operation is an `update_holders` call. -/
def Op.isUpdate : Op → Bool
  | .updateOp _ _ _ _ => true
  | _ => false

/-- The state transition of one operation (outbound directives dropped). -/
def step (st : RegState) : Op → RegState
  | .storeOp sec data msg fresh => (store sec data msg fresh st).1
  | .deleteOp address msg fresh => (delete address msg fresh st).1
  | .dupOp env sec node => (duplicate_chunks env sec node st).1
  | .updateOp address holder result message_id =>
      update_holders address holder result message_id st

/-- The register state after a sequence of operations from the freshly
initialised (empty) databases. -/
def execOps (ops : List Op) : RegState :=
  ops.foldl step initState

/-! ## ChunkStorage (Adult blob store, src/src/chunks/chunk_storage.rs) -/

/-- The error values arising on the ChunkStorage paths (crate `Error` and
sn_messaging `client::Error`, which coincide on the kinds used here;
`convert_to_error_message` of src/error.rs maps the former onto the
latter kind-for-kind per spec section 7). -/
inductive CsError
  | invalidOwners (pk : PublicKey)
  | dataExists
  | noSuchData
  | invalidOperation
  | failedToDelete
  | noSuchKey
  deriving DecidableEq

/-- The requesting end user (`EndUser`): identified by its public key. -/
structure EndUser where
  id : PublicKey
  deriving DecidableEq

/-- The Adult-side store: the node name and the content-addressed chunk
map (`BlobChunkStore` behind its `has/put/get/delete` contract).  Disk
writes succeed in the model; no claim concerns I/O failure. -/
structure ChunkStorage where
  node_name : XorName
  chunks : BlobAddress → Option Blob

/-- The outbound messages ChunkStorage constructs. -/
inductive CsMessage
  | cmdError (error : CsError) (id : MessageId) (correlation_id : MessageId)
  | queryResponseGetBlob (result : Except CsError Blob) (id : MessageId)
      (correlation_id : MessageId)

/-- The outbound id of a `CsMessage`. -/
def CsMessage.msgId : CsMessage → MessageId
  | .cmdError _ i _ => i
  | .queryResponseGetBlob _ i _ => i

/-- The correlation id of a `CsMessage`. -/
def CsMessage.corrId : CsMessage → MessageId
  | .cmdError _ _ c => c
  | .queryResponseGetBlob _ _ c => c

/-- An `OutgoingMsg` sent to the originating end user
(`section_source ` is always false: sent as single node). -/
structure OutgoingMsg where
  msg : CsMessage
  section_source : Bool
  dst : EndUser

/-- chunk_storage.rs `NodeDuty` outcomes used by these operations. -/
inductive NodeDuty
  | noOp
  | send (o : OutgoingMsg)

/-- chunk_storage.rs `try_store`: ownership check for private blobs first
(a missing or mismatched owner is `InvalidOwners(origin)`), then the
existence check (`DataExists`), then the disk write. -/
def try_store (data : Blob) (origin : EndUser) (cs : ChunkStorage) :
    Except CsError ChunkStorage :=
  match
    (if data.is_private then
      match data.owner with
      | none => Except.error (CsError.invalidOwners origin.id)
      | some data_owner =>
        if data_owner != origin.id then Except.error (CsError.invalidOwners origin.id)
        else Except.ok ()
    else Except.ok ()) with
  | .error e => .error e
  | .ok _ =>
    if (cs.chunks data.address).isSome then
      .error .dataExists
    else
      .ok { cs with chunks := updF cs.chunks data.address (some data) }

/-- chunk_storage.rs `store`: on `try_store` failure send a `CmdError`
with id `in_response_to(msg_id)` and correlation id `msg_id`. -/
def cs_store (env : ExternalFns) (data : Blob) (msg_id : MessageId) (origin : EndUser)
    (cs : ChunkStorage) : ChunkStorage × NodeDuty :=
  match try_store data origin cs with
  | .error e =>
    (cs, .send ⟨.cmdError e (env.in_response_to msg_id) msg_id, false, origin⟩)
  | .ok cs1 => (cs1, .noOp)

/-- chunk_storage.rs `get`: reply with the chunk or `NoSuchData`. -/
def cs_get (env : ExternalFns) (address : BlobAddress) (msg_id : MessageId)
    (origin : EndUser) (cs : ChunkStorage) : NodeDuty :=
  let result : Except CsError Blob :=
    match cs.chunks address with
    | some data => .ok data
    | none => .error .noSuchData
  .send ⟨.queryResponseGetBlob result (env.in_response_to msg_id) msg_id, false, origin⟩

/-- chunk_storage.rs `store_for_replication`: no-op when present,
otherwise store. -/
def store_for_replication (blob : Blob) (cs : ChunkStorage) : ChunkStorage × NodeDuty :=
  if (cs.chunks blob.address).isSome then
    (cs, .noOp)
  else
    ({ cs with chunks := updF cs.chunks blob.address (some blob) }, .noOp)

/-- chunk_storage.rs `delete`: no-op for an absent address; a public blob
is `InvalidOperation`; a private blob deletes only for its owner, else
`InvalidOwners`.  Disk deletion succeeds in the model (the
`FailedToDelete` branch covers only I/O refusal). -/
def cs_delete (env : ExternalFns) (address : BlobAddress) (msg_id : MessageId)
    (origin : EndUser) (cs : ChunkStorage) : ChunkStorage × NodeDuty :=
  if (cs.chunks address).isNone then
    (cs, .noOp)
  else
    let outcome : ChunkStorage × Option CsError :=
      match cs.chunks address with
      | some (Blob.privBlob _ _ data_owner) =>
        if data_owner = origin.id then
          ({ cs with chunks := updF cs.chunks address none }, none)
        else
          (cs, some (.invalidOwners origin.id))
      | some (Blob.pubBlob _ _) => (cs, some .invalidOperation)
      | none => (cs, some .noSuchKey)
    match outcome.2 with
    | some e =>
      (outcome.1, .send ⟨.cmdError e (env.in_response_to msg_id) msg_id, false, origin⟩)
    | none => (outcome.1, .noOp)

/-! ## Dispatcher (src/src/node/duty_finder.rs) -/

/-- safe_nd `ElderDuty`. -/
inductive ElderDuty
  | gateway
  | payment
  | metadata
  | rewards
  deriving DecidableEq

/-- safe_nd `Duty` as matched by the dispatcher. -/
inductive Duty
  | elder (d : ElderDuty)
  | adult
  deriving DecidableEq

/-- safe_nd `MsgSender`: the most recent sender of the envelope. -/
inductive MsgSender
  | client (key : PublicKey)
  | node (duty : Duty)
  | section (duty : Duty)
  deriving DecidableEq

/-- safe_nd `Address`: the destination of the envelope. -/
inductive DstAddress
  | client (x : XorName)
  | node (x : XorName)
  | section (x : XorName)
  deriving DecidableEq

/-- The payload shape inspected by the dispatcher: a command that is an
Auth command, a Data command (further split on whether it is a Blob data
command), or anything else (queries, events, ...). -/
inductive Payload
  | authCmd
  | dataCmd (isBlob : Bool)
  | other
  deriving DecidableEq

/-- The envelope fields the dispatcher inspects (spec section 3:
most-recent sender, payload kind, destination). -/
structure Envelope where
  message : Payload
  most_recent_sender : MsgSender
  destination : DstAddress
  deriving DecidableEq

/-- The routing view behind `RemoteMsgEval`: the local node identifier and
the `matches_our_pfx` test of the section. -/
structure RoutingView where
  self_name : XorName
  matchesOurPfx : XorName → Bool

/-- duty_finder.rs `EvalOptions` (the envelope payloads add nothing and
are dropped). -/
inductive EvalOptions
  | forwardToNetwork
  | runAtGateway
  | runAtPayment
  | accumulateForMetadata
  | runAtMetadata
  | accumulateForAdult
  | runAtAdult
  | pushToClient
  | runAtRewards
  | unknown
  deriving DecidableEq

/-- duty_finder.rs `self_is_handler_for`. -/
def self_is_handler_for (view : RoutingView) (address : XorName) : Bool :=
  view.matchesOurPfx address

/-- duty_finder.rs `should_forward_to_network`. -/
def should_forward_to_network (view : RoutingView) (msg : Envelope) : Bool :=
  let destined_for_network :=
    match msg.destination with
    | .client _ => false
    | .node address => address != view.self_name
    | .section address => !self_is_handler_for view address
  let from_client :=
    match msg.most_recent_sender with
    | .client _ => true
    | _ => false
  let is_auth_cmd :=
    match msg.message with
    | .authCmd => true
    | _ => false
  destined_for_network || (from_client && !is_auth_cmd)

/-- duty_finder.rs `should_run_at_gateway`. -/
def should_run_at_gateway (msg : Envelope) : Bool :=
  let from_client :=
    match msg.most_recent_sender with
    | .client _ => true
    | _ => false
  let is_auth_cmd :=
    match msg.message with
    | .authCmd => true
    | _ => false
  from_client && is_auth_cmd

/-- duty_finder.rs `should_run_at_data_payment`. -/
def should_run_at_data_payment (msg : Envelope) : Bool :=
  let from_gateway_elders :=
    match msg.most_recent_sender with
    | .node (.elder .gateway) => true
    | _ => false
  let is_data_cmd :=
    match msg.message with
    | .dataCmd _ => true
    | _ => false
  is_data_cmd && from_gateway_elders

/-- duty_finder.rs `should_accumulate_for_metadata_write`. -/
def should_accumulate_for_metadata_write (msg : Envelope) : Bool :=
  let from_payment_elder :=
    match msg.most_recent_sender with
    | .node (.elder .payment) => true
    | _ => false
  let is_data_cmd :=
    match msg.message with
    | .dataCmd _ => true
    | _ => false
  is_data_cmd && from_payment_elder

/-- duty_finder.rs `should_run_at_metadata_write`. -/
def should_run_at_metadata_write (msg : Envelope) : Bool :=
  let from_payment_elders :=
    match msg.most_recent_sender with
    | .section (.elder .payment) => true
    | _ => false
  let is_data_cmd :=
    match msg.message with
    | .dataCmd _ => true
    | _ => false
  is_data_cmd && from_payment_elders

/-- duty_finder.rs `should_accumulate_for_chunk_write`. -/
def should_accumulate_for_chunk_write (msg : Envelope) : Bool :=
  let from_metadata_elders :=
    match msg.most_recent_sender with
    | .node (.elder .metadata) => true
    | _ => false
  let is_blob_data_cmd :=
    match msg.message with
    | .dataCmd true => true
    | _ => false
  is_blob_data_cmd && from_metadata_elders

/-- duty_finder.rs `should_run_at_chunk_write`. -/
def should_run_at_chunk_write (msg : Envelope) : Bool :=
  let from_metadata_elders :=
    match msg.most_recent_sender with
    | .section (.elder .metadata) => true
    | _ => false
  let is_blob_data_cmd :=
    match msg.message with
    | .dataCmd true => true
    | _ => false
  is_blob_data_cmd && from_metadata_elders

/-- duty_finder.rs `should_push_to_client`. -/
def should_push_to_client (view : RoutingView) (msg : Envelope) : Bool :=
  match msg.destination with
  | .client x => self_is_handler_for view x
  | _ => false

/-- duty_finder.rs `should_run_at_rewards`: the body is `unimplemented!()`
and panics whenever called; the model returns `none` for the panic. -/
def should_run_at_rewards (_msg : Envelope) : Option Bool :=
  none

/-- duty_finder.rs `evaluate`: the first matching rule wins; `none`
models a panic (reached exactly when `should_run_at_rewards` is called,
since its body is `unimplemented!()`).  The trailing `Unknown` branch of
the source is reproduced faithfully even though it is unreachable. -/
def evaluate (view : RoutingView) (msg : Envelope) : Option EvalOptions :=
  if should_forward_to_network view msg then some .forwardToNetwork
  else if should_run_at_gateway msg then some .runAtGateway
  else if should_run_at_data_payment msg then some .runAtPayment
  else if should_accumulate_for_metadata_write msg then some .accumulateForMetadata
  else if should_run_at_metadata_write msg then some .runAtMetadata
  else if should_accumulate_for_chunk_write msg then some .accumulateForAdult
  else if should_run_at_chunk_write msg then some .runAtAdult
  else if should_push_to_client view msg then some .pushToClient
  else
    match should_run_at_rewards msg with
    | some b => if b then some .runAtRewards else some .unknown
    | none => none

/-! ## The index invariants of the BlobRegister -/

/-- The holder set recorded for `a` (`∅` when no entry is persisted). -/
def metaHolders (st : RegState) (a : BlobAddress) : Finset XorName :=
  ((st.metadata a).map ChunkMetadata.holders).getD ∅

/-- The chunk set recorded for holder `n` (`∅` when no entry is persisted). -/
def holderChunks (st : RegState) (n : XorName) : Finset BlobAddress :=
  ((st.holders n).map HolderMetadata.chunks).getD ∅

/-- Index symmetry: the two indices are mutual inverses. -/
def symmInv (st : RegState) : Prop :=
  ∀ (n : XorName) (a : BlobAddress), n ∈ metaHolders st a ↔ a ∈ holderChunks st n

/-- No persisted chunk record has an empty holder set. -/
def noEmptyMeta (st : RegState) : Prop :=
  ∀ a md, st.metadata a = some md → md.holders ≠ ∅

/-- No persisted holder record has an empty chunk set. -/
def noEmptyHolder (st : RegState) : Prop :=
  ∀ n hm, st.holders n = some hm → hm.chunks ≠ ∅

/-- The conjunction of the register invariants. -/
def Inv (st : RegState) : Prop :=
  symmInv st ∧ noEmptyMeta st ∧ noEmptyHolder st

/-- The holder-set bound of spec section 3. -/
def cardBound (st : RegState) : Prop :=
  ∀ a : BlobAddress, (metaHolders st a).card ≤ CHUNK_COPY_COUNT

/-- The state transformation performed by one iteration of the
`remove_holder` loop (the pair component only accumulates the output
list). -/
def dupStepSt (node : XorName) (st : RegState) (a : BlobAddress) : RegState :=
  match get_metadata_for st a with
  | none => st
  | some md =>
    if md.holders.erase node = ∅ then
      { st with metadata := updF st.metadata a none }
    else
      { st with metadata := updF st.metadata a (some ⟨md.holders.erase node, md.owner⟩) }

/-- Modelled from the spec (section 4.2.1 step 3, used to formalise claim
C6): start with the `CHUNK_ADULT_COPY_COUNT` Adults closest by XOR to the
target, excluding members of the full-adult set; if fewer than
`CHUNK_COPY_COUNT` targets result, append the closest Elders until the
count is met. -/
def spec_targets_excluding (full : Finset XorName) (sec : SectionView) (t : XorName) :
    List XorName :=
  let adults :=
    (sortByDistanceTo t (sec.adults.filter (fun x => decide (x ∉ full)))).take
      CHUNK_ADULT_COPY_COUNT
  if adults.length < CHUNK_COPY_COUNT then
    adults ++ (sortByDistanceTo t sec.elders).take (CHUNK_COPY_COUNT - adults.length)
  else
    adults

/-- Modelled from the spec with the full-adult exclusion dropped: start
with the `CHUNK_ADULT_COPY_COUNT` Adults closest by XOR to the target; if
fewer than `CHUNK_COPY_COUNT` targets result, append the closest Elders
until the count is met. -/
def spec_targets (sec : SectionView) (t : XorName) : List XorName :=
  let adults := (sortByDistanceTo t sec.adults).take CHUNK_ADULT_COPY_COUNT
  if adults.length < CHUNK_COPY_COUNT then
    adults ++ (sortByDistanceTo t sec.elders).take (CHUNK_COPY_COUNT - adults.length)
  else
    adults

/-! ## Basic lemmas -/

theorem updF_eq {α β : Type} [DecidableEq α] (f : α → Option β) (a : α) (v : Option β) :
    updF f a v a = v := by
  simp [updF]

theorem updF_ne {α β : Type} [DecidableEq α] (f : α → Option β) (a : α) (v : Option β)
    {b : α} (h : b ≠ a) : updF f a v b = f b := by
  simp [updF, h]

theorem mem_sortedList {α : Type} [LinearOrder α] {s : Finset α} {x : α} :
    x ∈ sortedList s ↔ x ∈ s := by
  rcases s with ⟨m, hm⟩
  induction m using Quotient.inductionOn with
  | h l =>
    show x ∈ List.insertionSort _ l ↔ _
    rw [(List.perm_insertionSort _ l).mem_iff]
    rfl

theorem sortedList_nodup {α : Type} [LinearOrder α] (s : Finset α) :
    (sortedList s).Nodup := by
  rcases s with ⟨m, hm⟩
  induction m using Quotient.inductionOn with
  | h l => exact (List.perm_insertionSort _ l).nodup_iff.mpr hm

theorem sortedList_toFinset {α : Type} [LinearOrder α] [DecidableEq α] (s : Finset α) :
    (sortedList s).toFinset = s := by
  ext x
  rw [List.mem_toFinset, mem_sortedList]

theorem sortedList_eq_nil {α : Type} [LinearOrder α] {s : Finset α} :
    sortedList s = [] ↔ s = ∅ := by
  constructor
  · intro h
    ext x
    simp only [Finset.not_mem_empty, iff_false]
    intro hx
    rw [← mem_sortedList (s := s), h] at hx
    exact absurd hx (List.not_mem_nil x)
  · rintro rfl
    rfl

theorem metaHolders_of_some {st : RegState} {a md} (h : st.metadata a = some md) :
    metaHolders st a = md.holders := by
  simp [metaHolders, h]

theorem metaHolders_of_none {st : RegState} {a} (h : st.metadata a = none) :
    metaHolders st a = ∅ := by
  simp [metaHolders, h]

theorem holderChunks_of_some {st : RegState} {n hm} (h : st.holders n = some hm) :
    holderChunks st n = hm.chunks := by
  simp [holderChunks, h]

theorem holderChunks_of_none {st : RegState} {n} (h : st.holders n = none) :
    holderChunks st n = ∅ := by
  simp [holderChunks, h]

theorem gm_some_iff {st : RegState} {a md} :
    get_metadata_for st a = some md ↔ st.metadata a = some md ∧ md.holders ≠ ∅ := by
  unfold get_metadata_for
  cases hma : st.metadata a with
  | none => simp
  | some md0 =>
    simp only [Option.some_bind, Option.some.injEq]
    by_cases h0 : md0.holders = ∅
    · rw [if_pos h0]
      constructor
      · intro h
        exact Option.noConfusion h
      · rintro ⟨h1, h2⟩
        subst h1
        exact absurd h0 h2
    · rw [if_neg h0]
      constructor
      · intro h
        injection h with h
        subst h
        exact ⟨rfl, h0⟩
      · rintro ⟨h1, _⟩
        subst h1
        rfl

theorem gh_some_iff {st : RegState} {n hm} :
    get_holder st n = some hm ↔ st.holders n = some hm ∧ hm.chunks ≠ ∅ := by
  unfold get_holder
  cases hn : st.holders n with
  | none => simp
  | some hm0 =>
    simp only [Option.some_bind, Option.some.injEq]
    by_cases h0 : hm0.chunks = ∅
    · rw [if_pos h0]
      constructor
      · intro h
        exact Option.noConfusion h
      · rintro ⟨h1, h2⟩
        subst h1
        exact absurd h0 h2
    · rw [if_neg h0]
      constructor
      · intro h
        injection h with h
        subst h
        exact ⟨rfl, h0⟩
      · rintro ⟨h1, _⟩
        subst h1
        rfl

theorem metaHolders_of_gm_none {st : RegState} {a} (h : get_metadata_for st a = none) :
    metaHolders st a = ∅ := by
  unfold get_metadata_for at h
  cases hma : st.metadata a with
  | none => exact metaHolders_of_none hma
  | some md =>
    rw [hma] at h
    by_cases h0 : md.holders = ∅
    · rw [metaHolders_of_some hma, h0]
    · simp [h0] at h

theorem holderChunks_of_gh_none {st : RegState} {n} (h : get_holder st n = none) :
    holderChunks st n = ∅ := by
  unfold get_holder at h
  cases hn : st.holders n with
  | none => exact holderChunks_of_none hn
  | some hm =>
    rw [hn] at h
    by_cases h0 : hm.chunks = ∅
    · rw [holderChunks_of_some hn, h0]
    · simp [h0] at h

theorem getD_holders (st : RegState) (a : BlobAddress) :
    ((get_metadata_for st a).getD ⟨∅, none⟩).holders = metaHolders st a := by
  cases hg : get_metadata_for st a with
  | none => rw [metaHolders_of_gm_none hg]; rfl
  | some md =>
    rw [metaHolders_of_some (gm_some_iff.mp hg).1]
    rfl

theorem getD_chunks (st : RegState) (n : XorName) :
    ((get_holder st n).getD ⟨∅⟩).chunks = holderChunks st n := by
  cases hg : get_holder st n with
  | none => rw [holderChunks_of_gh_none hg]; rfl
  | some hm =>
    rw [holderChunks_of_some (gh_some_iff.mp hg).1]
    rfl

/-! Effect of `set_chunk_holder` on the two indices. -/

theorem scs_metadata_other {a : BlobAddress} {h : XorName} {o : PublicKey}
    {st : RegState} {b : BlobAddress} (hba : b ≠ a) :
    (set_chunk_holder a h o st).metadata b = st.metadata b := by
  simp [set_chunk_holder, updF_ne _ _ _ hba]

theorem scs_holders_other {a : BlobAddress} {h : XorName} {o : PublicKey}
    {st : RegState} {n : XorName} (hnh : n ≠ h) :
    (set_chunk_holder a h o st).holders n = st.holders n := by
  simp [set_chunk_holder, updF_ne _ _ _ hnh]

theorem metaHolders_scs (a : BlobAddress) (h : XorName) (o : PublicKey)
    (st : RegState) (b : BlobAddress) :
    metaHolders (set_chunk_holder a h o st) b =
      if b = a then insert h (metaHolders st a) else metaHolders st b := by
  by_cases hba : b = a
  · subst hba
    rw [if_pos rfl]
    unfold metaHolders set_chunk_holder
    simp only [updF_eq, Option.map_some', Option.getD_some, getD_holders]
    rfl
  · rw [if_neg hba]
    unfold metaHolders
    rw [scs_metadata_other hba]

theorem holderChunks_scs (a : BlobAddress) (h : XorName) (o : PublicKey)
    (st : RegState) (n : XorName) :
    holderChunks (set_chunk_holder a h o st) n =
      if n = h then insert a (holderChunks st h) else holderChunks st n := by
  by_cases hnh : n = h
  · subst hnh
    rw [if_pos rfl]
    unfold holderChunks set_chunk_holder
    simp only [updF_eq, Option.map_some', Option.getD_some, getD_chunks]
    rfl
  · rw [if_neg hnh]
    unfold holderChunks
    rw [scs_holders_other hnh]

theorem symmInv_scs {st : RegState} (hs : symmInv st) (a : BlobAddress) (h : XorName)
    (o : PublicKey) : symmInv (set_chunk_holder a h o st) := by
  intro n b
  rw [metaHolders_scs, holderChunks_scs]
  by_cases hba : b = a <;> by_cases hnh : n = h
  · subst hba; subst hnh
    simp
  · subst hba
    rw [if_pos rfl, if_neg hnh, Finset.mem_insert, hs n b]
    simp [hnh]
  · subst hnh
    rw [if_neg hba, if_pos rfl, Finset.mem_insert, hs n b]
    simp [hba]
  · rw [if_neg hba, if_neg hnh]
    exact hs n b

theorem noEmptyMeta_scs {st : RegState} (h1 : noEmptyMeta st) (a : BlobAddress)
    (h : XorName) (o : PublicKey) : noEmptyMeta (set_chunk_holder a h o st) := by
  intro b md hb
  by_cases hba : b = a
  · subst hba
    simp only [set_chunk_holder, updF_eq] at hb
    cases hb
    exact Finset.insert_ne_empty _ _
  · rw [scs_metadata_other hba] at hb
    exact h1 b md hb

theorem noEmptyHolder_scs {st : RegState} (h1 : noEmptyHolder st) (a : BlobAddress)
    (h : XorName) (o : PublicKey) : noEmptyHolder (set_chunk_holder a h o st) := by
  intro n hm hn
  by_cases hnh : n = h
  · subst hnh
    simp only [set_chunk_holder, updF_eq] at hn
    cases hn
    exact Finset.insert_ne_empty _ _
  · rw [scs_holders_other hnh] at hn
    exact h1 n hm hn

theorem Inv_scs {st : RegState} (hI : Inv st) (a : BlobAddress) (h : XorName)
    (o : PublicKey) : Inv (set_chunk_holder a h o st) :=
  ⟨symmInv_scs hI.1 a h o, noEmptyMeta_scs hI.2.1 a h o, noEmptyHolder_scs hI.2.2 a h o⟩

/-! Effect of `update_holders` on the two indices: identical to
`set_chunk_holder` except that the owner is left alone. -/

theorem upd_metadata_other {a : BlobAddress} {h : XorName} {r mi}
    {st : RegState} {b : BlobAddress} (hba : b ≠ a) :
    (update_holders a h r mi st).metadata b = st.metadata b := by
  simp [update_holders, updF_ne _ _ _ hba]

theorem upd_holders_other {a : BlobAddress} {h : XorName} {r mi}
    {st : RegState} {n : XorName} (hnh : n ≠ h) :
    (update_holders a h r mi st).holders n = st.holders n := by
  simp [update_holders, updF_ne _ _ _ hnh]

theorem metaHolders_upd (a : BlobAddress) (h : XorName) (r : Option Unit)
    (mi : MessageId) (st : RegState) (b : BlobAddress) :
    metaHolders (update_holders a h r mi st) b =
      if b = a then insert h (metaHolders st a) else metaHolders st b := by
  by_cases hba : b = a
  · subst hba
    rw [if_pos rfl]
    unfold metaHolders update_holders
    simp only [updF_eq, Option.map_some', Option.getD_some, getD_holders]
    rfl
  · rw [if_neg hba]
    unfold metaHolders
    rw [upd_metadata_other hba]

theorem holderChunks_upd (a : BlobAddress) (h : XorName) (r : Option Unit)
    (mi : MessageId) (st : RegState) (n : XorName) :
    holderChunks (update_holders a h r mi st) n =
      if n = h then insert a (holderChunks st h) else holderChunks st n := by
  by_cases hnh : n = h
  · subst hnh
    rw [if_pos rfl]
    unfold holderChunks update_holders
    simp only [updF_eq, Option.map_some', Option.getD_some, getD_chunks]
    rfl
  · rw [if_neg hnh]
    unfold holderChunks
    rw [upd_holders_other hnh]

theorem symmInv_upd {st : RegState} (hs : symmInv st) (a : BlobAddress) (h : XorName)
    (r : Option Unit) (mi : MessageId) : symmInv (update_holders a h r mi st) := by
  intro n b
  rw [metaHolders_upd, holderChunks_upd]
  by_cases hba : b = a <;> by_cases hnh : n = h
  · subst hba; subst hnh
    simp
  · subst hba
    rw [if_pos rfl, if_neg hnh, Finset.mem_insert, hs n b]
    simp [hnh]
  · subst hnh
    rw [if_neg hba, if_pos rfl, Finset.mem_insert, hs n b]
    simp [hba]
  · rw [if_neg hba, if_neg hnh]
    exact hs n b

theorem noEmptyMeta_upd {st : RegState} (h1 : noEmptyMeta st) (a : BlobAddress)
    (h : XorName) (r : Option Unit) (mi : MessageId) :
    noEmptyMeta (update_holders a h r mi st) := by
  intro b md hb
  by_cases hba : b = a
  · subst hba
    simp only [update_holders, updF_eq] at hb
    cases hb
    exact Finset.insert_ne_empty _ _
  · rw [upd_metadata_other hba] at hb
    exact h1 b md hb

theorem noEmptyHolder_upd {st : RegState} (h1 : noEmptyHolder st) (a : BlobAddress)
    (h : XorName) (r : Option Unit) (mi : MessageId) :
    noEmptyHolder (update_holders a h r mi st) := by
  intro n hm hn
  by_cases hnh : n = h
  · subst hnh
    simp only [update_holders, updF_eq] at hn
    cases hn
    exact Finset.insert_ne_empty _ _
  · rw [upd_holders_other hnh] at hn
    exact h1 n hm hn

theorem Inv_upd {st : RegState} (hI : Inv st) (a : BlobAddress) (h : XorName)
    (r : Option Unit) (mi : MessageId) : Inv (update_holders a h r mi st) :=
  ⟨symmInv_upd hI.1 a h r mi, noEmptyMeta_upd hI.2.1 a h r mi,
    noEmptyHolder_upd hI.2.2 a h r mi⟩

/-! Effect of `remove_chunk_holder` on the two indices. -/

theorem rchh_metadata (a : BlobAddress) (h : XorName) (st : RegState) :
    (rch_holder_side a h st).metadata = st.metadata := by
  unfold rch_holder_side
  split
  · rfl
  · split <;> rfl

theorem rchm_holders (a : BlobAddress) (h : XorName) (md : ChunkMetadata)
    (st : RegState) : (rch_meta_side a h md st).holders = st.holders := by
  unfold rch_meta_side
  split <;> rfl

theorem rchh_holders_other {a : BlobAddress} {h : XorName} {st : RegState}
    {n : XorName} (hnh : n ≠ h) :
    (rch_holder_side a h st).holders n = st.holders n := by
  unfold rch_holder_side
  split
  · rfl
  · split <;> exact updF_ne _ _ _ hnh

theorem holderChunks_rchh (a : BlobAddress) (h : XorName) (st : RegState)
    (n : XorName) :
    holderChunks (rch_holder_side a h st) n =
      if n = h then (holderChunks st h).erase a else holderChunks st n := by
  by_cases hnh : n = h
  · subst hnh
    rw [if_pos rfl]
    unfold rch_holder_side
    split
    · next hgh =>
      rw [holderChunks_of_gh_none hgh, Finset.erase_empty]
    · next hm hgh =>
      rw [holderChunks_of_some (gh_some_iff.mp hgh).1]
      split
      · next hc =>
        unfold holderChunks
        simp only [updF_eq, Option.map_none', Option.getD_none]
        exact hc.symm
      · next hc =>
        unfold holderChunks
        simp only [updF_eq, Option.map_some', Option.getD_some]
  · rw [if_neg hnh]
    unfold holderChunks
    rw [rchh_holders_other hnh]

theorem rchm_metadata_self (a : BlobAddress) (h : XorName) (md : ChunkMetadata)
    (st : RegState) :
    (rch_meta_side a h md st).metadata a =
      if md.holders.erase h = ∅ then none
      else some ⟨md.holders.erase h, md.owner⟩ := by
  unfold rch_meta_side
  by_cases h0 : md.holders.erase h = ∅
  · rw [if_pos h0, if_pos h0]
    exact updF_eq _ _ _
  · rw [if_neg h0, if_neg h0]
    exact updF_eq _ _ _

theorem rchm_metadata_other {a : BlobAddress} {h : XorName} {md : ChunkMetadata}
    {st : RegState} {b : BlobAddress} (hba : b ≠ a) :
    (rch_meta_side a h md st).metadata b = st.metadata b := by
  unfold rch_meta_side
  split
  · exact updF_ne _ _ _ hba
  · exact updF_ne _ _ _ hba

theorem rch_of_none {a : BlobAddress} {h : XorName} {st : RegState}
    (hgm : get_metadata_for st a = none) : remove_chunk_holder a h st = st := by
  unfold remove_chunk_holder
  rw [hgm]

theorem rch_of_some {a : BlobAddress} {h : XorName} {st : RegState} {md : ChunkMetadata}
    (hgm : get_metadata_for st a = some md) :
    remove_chunk_holder a h st = rch_meta_side a h md (rch_holder_side a h st) := by
  unfold remove_chunk_holder
  rw [hgm]

theorem metaHolders_rch (a : BlobAddress) (h : XorName) (st : RegState)
    (b : BlobAddress) :
    metaHolders (remove_chunk_holder a h st) b =
      if b = a then (metaHolders st a).erase h else metaHolders st b := by
  cases hgm : get_metadata_for st a with
  | none =>
    rw [rch_of_none hgm]
    by_cases hba : b = a
    · subst hba
      rw [if_pos rfl, metaHolders_of_gm_none hgm, Finset.erase_empty]
    · rw [if_neg hba]
  | some md =>
    rw [rch_of_some hgm]
    by_cases hba : b = a
    · subst hba
      rw [if_pos rfl, metaHolders_of_some (gm_some_iff.mp hgm).1]
      unfold metaHolders
      rw [rchm_metadata_self]
      by_cases h0 : md.holders.erase h = ∅
      · rw [if_pos h0]
        simp only [Option.map_none', Option.getD_none]
        exact h0.symm
      · rw [if_neg h0]
        simp only [Option.map_some', Option.getD_some]
    · rw [if_neg hba]
      unfold metaHolders
      rw [rchm_metadata_other hba, congrFun (rchh_metadata a h st) b]

theorem holderChunks_rch {a : BlobAddress} {h : XorName} {st : RegState}
    {md : ChunkMetadata} (hgm : get_metadata_for st a = some md) (n : XorName) :
    holderChunks (remove_chunk_holder a h st) n =
      if n = h then (holderChunks st h).erase a else holderChunks st n := by
  rw [rch_of_some hgm]
  unfold holderChunks
  rw [congrFun (rchm_holders a h md (rch_holder_side a h st)) n]
  exact holderChunks_rchh a h st n

theorem symmInv_rch {st : RegState} (hs : symmInv st) (a : BlobAddress)
    (h : XorName) : symmInv (remove_chunk_holder a h st) := by
  cases hgm : get_metadata_for st a with
  | none =>
    rw [rch_of_none hgm]
    exact hs
  | some md =>
    intro n b
    rw [metaHolders_rch, holderChunks_rch hgm]
    by_cases hba : b = a <;> by_cases hnh : n = h
    · subst hba; subst hnh
      simp
    · subst hba
      rw [if_pos rfl, if_neg hnh, Finset.mem_erase, hs n b]
      simp [hnh]
    · subst hnh
      rw [if_neg hba, if_pos rfl, Finset.mem_erase, hs n b]
      simp [hba]
    · rw [if_neg hba, if_neg hnh]
      exact hs n b

theorem noEmptyMeta_rch {st : RegState} (h1 : noEmptyMeta st) (a : BlobAddress)
    (h : XorName) : noEmptyMeta (remove_chunk_holder a h st) := by
  cases hgm : get_metadata_for st a with
  | none =>
    rw [rch_of_none hgm]
    exact h1
  | some md =>
    intro b md' hb
    rw [rch_of_some hgm] at hb
    by_cases hba : b = a
    · subst hba
      rw [rchm_metadata_self] at hb
      by_cases h0 : md.holders.erase h = ∅
      · rw [if_pos h0] at hb
        exact Option.noConfusion hb
      · rw [if_neg h0] at hb
        injection hb with hb
        subst hb
        exact h0
    · rw [rchm_metadata_other hba, congrFun (rchh_metadata a h st) b] at hb
      exact h1 b md' hb

theorem noEmptyHolder_rch {st : RegState} (h1 : noEmptyHolder st) (a : BlobAddress)
    (h : XorName) : noEmptyHolder (remove_chunk_holder a h st) := by
  cases hgm : get_metadata_for st a with
  | none =>
    rw [rch_of_none hgm]
    exact h1
  | some md =>
    intro n hm' hn
    rw [rch_of_some hgm, congrFun (rchm_holders a h md (rch_holder_side a h st)) n] at hn
    by_cases hnh : n = h
    · subst hnh
      unfold rch_holder_side at hn
      split at hn
      · exact h1 n hm' hn
      · next hm hgh =>
        split at hn
        · next hc =>
          simp only [updF_eq] at hn
          exact Option.noConfusion hn
        · next hc =>
          simp only [updF_eq] at hn
          injection hn with hn
          subst hn
          exact hc
    · rw [rchh_holders_other hnh] at hn
      exact h1 n hm' hn

theorem Inv_rch {st : RegState} (hI : Inv st) (a : BlobAddress) (h : XorName) :
    Inv (remove_chunk_holder a h st) :=
  ⟨symmInv_rch hI.1 a h, noEmptyMeta_rch hI.2.1 a h, noEmptyHolder_rch hI.2.2 a h⟩

/-! Effect of `remove_holder` on the two indices. -/

theorem dupStepSt_holders (node : XorName) (st : RegState) (a : BlobAddress) :
    (dupStepSt node st a).holders = st.holders := by
  unfold dupStepSt
  split
  · rfl
  · split <;> rfl

theorem dupStepSt_full_adults (node : XorName) (st : RegState) (a : BlobAddress) :
    (dupStepSt node st a).full_adults = st.full_adults := by
  unfold dupStepSt
  split
  · rfl
  · split <;> rfl

theorem dupStepSt_metadata_other {node : XorName} {st : RegState} {a b : BlobAddress}
    (hba : b ≠ a) : (dupStepSt node st a).metadata b = st.metadata b := by
  unfold dupStepSt
  split
  · rfl
  · split <;> exact updF_ne _ _ _ hba

theorem metaHolders_dupStepSt (node : XorName) (st : RegState) (a b : BlobAddress) :
    metaHolders (dupStepSt node st a) b =
      if b = a then (metaHolders st a).erase node else metaHolders st b := by
  by_cases hba : b = a
  · subst hba
    rw [if_pos rfl]
    unfold dupStepSt
    split
    · next hgm => rw [metaHolders_of_gm_none hgm, Finset.erase_empty]
    · next md hgm =>
      rw [metaHolders_of_some (gm_some_iff.mp hgm).1]
      split
      · next h0 =>
        unfold metaHolders
        simp only [updF_eq, Option.map_none', Option.getD_none]
        exact h0.symm
      · next h0 =>
        unfold metaHolders
        simp only [updF_eq, Option.map_some', Option.getD_some]
  · rw [if_neg hba]
    unfold metaHolders
    rw [dupStepSt_metadata_other hba]

theorem noEmptyMeta_dupStepSt {st : RegState} (h1 : noEmptyMeta st) (node : XorName)
    (a : BlobAddress) : noEmptyMeta (dupStepSt node st a) := by
  intro b md' hb
  unfold dupStepSt at hb
  split at hb
  · exact h1 b md' hb
  · next md hgm =>
    split at hb
    · next h0 =>
      by_cases hba : b = a
      · subst hba
        simp only [updF_eq] at hb
        exact Option.noConfusion hb
      · simp only [updF_ne _ _ _ hba] at hb
        exact h1 b md' hb
    · next h0 =>
      by_cases hba : b = a
      · subst hba
        simp only [updF_eq] at hb
        injection hb with hb
        subst hb
        exact h0
      · simp only [updF_ne _ _ _ hba] at hb
        exact h1 b md' hb

theorem dupStepPair_fst (node : XorName)
    (p : RegState × List (BlobAddress × Finset XorName)) (a : BlobAddress) :
    (dupStepPair node p a).1 = dupStepSt node p.1 a := by
  unfold dupStepPair
  split
  · next hgm =>
    unfold dupStepSt
    rw [hgm]
  · next md hgm =>
    unfold dupStepSt
    rw [hgm]

theorem foldl_dupStepPair_fst (node : XorName) (l : List BlobAddress) :
    ∀ (st : RegState) (acc : List (BlobAddress × Finset XorName)),
      (l.foldl (dupStepPair node) (st, acc)).1 = l.foldl (dupStepSt node) st := by
  induction l with
  | nil => intro st acc; rfl
  | cons a t ih =>
    intro st acc
    rw [List.foldl_cons, List.foldl_cons]
    have hp : dupStepPair node (st, acc) a =
        ((dupStepPair node (st, acc) a).1, (dupStepPair node (st, acc) a).2) := rfl
    rw [hp, ih, dupStepPair_fst]

theorem foldl_dupStepSt_holders (node : XorName) (l : List BlobAddress) :
    ∀ st : RegState, (l.foldl (dupStepSt node) st).holders = st.holders := by
  induction l with
  | nil => intro st; rfl
  | cons a t ih =>
    intro st
    rw [List.foldl_cons, ih, dupStepSt_holders]

theorem metaHolders_foldl_dupStepSt (node : XorName) :
    ∀ (l : List BlobAddress), l.Nodup → ∀ (st : RegState) (b : BlobAddress),
      metaHolders (l.foldl (dupStepSt node) st) b =
        if b ∈ l then (metaHolders st b).erase node else metaHolders st b := by
  intro l
  induction l with
  | nil =>
    intro _ st b
    simp
  | cons a t ih =>
    intro hl st b
    have hnd := List.nodup_cons.mp hl
    rw [List.foldl_cons, ih hnd.2]
    by_cases hba : b = a
    · subst hba
      rw [if_neg (fun hbt => hnd.1 hbt), if_pos (List.mem_cons_self b t),
        metaHolders_dupStepSt, if_pos rfl]
    · rw [metaHolders_dupStepSt, if_neg hba]
      by_cases hbt : b ∈ t
      · rw [if_pos hbt, if_pos (List.mem_cons.mpr (Or.inr hbt))]
      · rw [if_neg hbt, if_neg (fun hmem => by
          rcases List.mem_cons.mp hmem with h1 | h1
          · exact hba h1
          · exact hbt h1)]

theorem noEmptyMeta_foldl_dupStepSt (node : XorName) (l : List BlobAddress) :
    ∀ st : RegState, noEmptyMeta st → noEmptyMeta (l.foldl (dupStepSt node) st) := by
  induction l with
  | nil => intro st h1; exact h1
  | cons a t ih =>
    intro st h1
    rw [List.foldl_cons]
    exact ih _ (noEmptyMeta_dupStepSt h1 node a)

theorem remove_holder_metadata (node : XorName) (st : RegState) :
    (remove_holder node st).1.metadata =
      match get_holder st node with
      | none => st.metadata
      | some hm => ((sortedList hm.chunks).foldl (dupStepSt node) st).metadata := by
  unfold remove_holder
  split
  · next hgh => rfl
  · next hm hgh =>
    show ((sortedList hm.chunks).foldl (dupStepPair node) (st, [])).1.metadata = _
    rw [foldl_dupStepPair_fst]

theorem remove_holder_holders (node : XorName) (st : RegState) :
    (remove_holder node st).1.holders = updF st.holders node none := by
  unfold remove_holder
  split
  · next hgh => rfl
  · next hm hgh =>
    show updF ((sortedList hm.chunks).foldl (dupStepPair node) (st, [])).1.holders node none = _
    rw [foldl_dupStepPair_fst, foldl_dupStepSt_holders]

theorem metaHolders_remove_holder (node : XorName) (st : RegState) (b : BlobAddress) :
    metaHolders (remove_holder node st).1 b =
      if b ∈ holderChunks st node then (metaHolders st b).erase node
      else metaHolders st b := by
  unfold metaHolders
  rw [remove_holder_metadata]
  cases hgh : get_holder st node with
  | none =>
    rw [holderChunks_of_gh_none hgh]
    simp
  | some hm =>
    rw [holderChunks_of_some (gh_some_iff.mp hgh).1]
    have := metaHolders_foldl_dupStepSt node (sortedList hm.chunks)
      (sortedList_nodup hm.chunks) st b
    unfold metaHolders at this
    rw [this]
    simp only [mem_sortedList]

theorem holderChunks_remove_holder (node : XorName) (st : RegState) (n : XorName) :
    holderChunks (remove_holder node st).1 n =
      if n = node then ∅ else holderChunks st n := by
  unfold holderChunks
  rw [remove_holder_holders]
  by_cases hn : n = node
  · subst hn
    rw [updF_eq]
    simp
  · rw [updF_ne _ _ _ hn, if_neg hn]

theorem symmInv_remove_holder {st : RegState} (hs : symmInv st) (node : XorName) :
    symmInv (remove_holder node st).1 := by
  intro n b
  rw [metaHolders_remove_holder, holderChunks_remove_holder]
  by_cases hn : n = node
  · subst hn
    rw [if_pos rfl]
    simp only [Finset.not_mem_empty, iff_false]
    by_cases hb : b ∈ holderChunks st n
    · rw [if_pos hb]
      intro hmem
      exact (Finset.mem_erase.mp hmem).1 rfl
    · rw [if_neg hb]
      intro hmem
      exact hb ((hs n b).mp hmem)
  · rw [if_neg hn]
    by_cases hb : b ∈ holderChunks st node
    · rw [if_pos hb, Finset.mem_erase]
      constructor
      · intro hmem
        exact (hs n b).mp hmem.2
      · intro hmem
        exact ⟨hn, (hs n b).mpr hmem⟩
    · rw [if_neg hb]
      exact hs n b

theorem noEmptyMeta_remove_holder {st : RegState} (h1 : noEmptyMeta st)
    (node : XorName) : noEmptyMeta (remove_holder node st).1 := by
  intro b md hb
  rw [remove_holder_metadata] at hb
  revert hb
  cases hgh : get_holder st node with
  | none => exact fun hb => h1 b md hb
  | some hm =>
    exact fun hb =>
      noEmptyMeta_foldl_dupStepSt node (sortedList hm.chunks) st h1 b md hb

theorem noEmptyHolder_remove_holder {st : RegState} (h1 : noEmptyHolder st)
    (node : XorName) : noEmptyHolder (remove_holder node st).1 := by
  intro n hm' hn
  rw [remove_holder_holders] at hn
  by_cases hnn : n = node
  · subst hnn
    rw [updF_eq] at hn
    exact Option.noConfusion hn
  · rw [updF_ne _ _ _ hnn] at hn
    exact h1 n hm' hn

theorem Inv_remove_holder {st : RegState} (hI : Inv st) (node : XorName) :
    Inv (remove_holder node st).1 :=
  ⟨symmInv_remove_holder hI.1 node, noEmptyMeta_remove_holder hI.2.1 node,
    noEmptyHolder_remove_holder hI.2.2 node⟩

/-! Effect of `store` (through `applyTargets`) on the two indices. -/

theorem applyTargets_cons (a : BlobAddress) (o : PublicKey) (h : XorName)
    (t : List XorName) (st : RegState) :
    applyTargets a o (h :: t) st = applyTargets a o t (set_chunk_holder a h o st) := rfl

theorem Inv_applyTargets (a : BlobAddress) (o : PublicKey) :
    ∀ (hs : List XorName) (st : RegState), Inv st → Inv (applyTargets a o hs st) := by
  intro hs
  induction hs with
  | nil => intro st hI; exact hI
  | cons h t ih =>
    intro st hI
    rw [applyTargets_cons]
    exact ih _ (Inv_scs hI a h o)

theorem metaHolders_applyTargets (a : BlobAddress) (o : PublicKey) :
    ∀ (hs : List XorName) (st : RegState) (b : BlobAddress),
      metaHolders (applyTargets a o hs st) b =
        if b = a then metaHolders st a ∪ hs.toFinset else metaHolders st b := by
  intro hs
  induction hs with
  | nil =>
    intro st b
    show metaHolders st b = _
    by_cases hba : b = a
    · subst hba
      rw [if_pos rfl, List.toFinset_nil, Finset.union_empty]
    · rw [if_neg hba]
  | cons h t ih =>
    intro st b
    rw [applyTargets_cons, ih]
    by_cases hba : b = a
    · subst hba
      rw [if_pos rfl, if_pos rfl, metaHolders_scs, if_pos rfl, List.toFinset_cons,
        Finset.insert_union, ← Finset.union_insert]
    · rw [if_neg hba, if_neg hba, metaHolders_scs, if_neg hba]

theorem applyTargets_metadata_other (a : BlobAddress) (o : PublicKey) :
    ∀ (hs : List XorName) (st : RegState) (b : BlobAddress), b ≠ a →
      (applyTargets a o hs st).metadata b = st.metadata b := by
  intro hs
  induction hs with
  | nil => intro st b _; rfl
  | cons h t ih =>
    intro st b hba
    rw [applyTargets_cons, ih _ _ hba, scs_metadata_other hba]

/-! Replica-count bounds. -/

theorem addUpTo_subset : ∀ (l : List XorName) (E : Finset XorName), E ⊆ addUpTo E l := by
  intro l
  induction l with
  | nil => intro E; exact Finset.Subset.refl E
  | cons h t ih =>
    intro E
    show E ⊆ addUpTo (if h ∉ E ∧ E.card < CHUNK_COPY_COUNT then insert h E else E) t
    refine Finset.Subset.trans ?_ (ih _)
    split
    · exact Finset.subset_insert _ _
    · exact Finset.Subset.refl E

theorem addUpTo_card : ∀ (l : List XorName) (E : Finset XorName),
    E.card ≤ CHUNK_COPY_COUNT → (addUpTo E l).card ≤ CHUNK_COPY_COUNT := by
  intro l
  induction l with
  | nil => intro E hE; exact hE
  | cons h t ih =>
    intro E hE
    show (addUpTo (if h ∉ E ∧ E.card < CHUNK_COPY_COUNT then insert h E else E) t).card ≤ _
    apply ih
    split
    · next hc =>
      have h1 := Finset.card_insert_le h E
      have h2 := hc.2
      unfold CHUNK_COPY_COUNT at *
      omega
    · exact hE

theorem ghfc_length_le (st : RegState) (sec : SectionView) (t : XorName) :
    (get_holders_for_chunk st sec t).length ≤ CHUNK_COPY_COUNT := by
  unfold get_holders_for_chunk our_adults_sorted_by_distance_to
    our_elder_names_sorted_by_distance_to
  have h1 := List.length_take_le CHUNK_ADULT_COPY_COUNT (sortByDistanceTo t sec.adults)
  dsimp only
  split
  · next hlt =>
    rw [List.length_append]
    have h2 := List.length_take_le
      (CHUNK_COPY_COUNT - ((sortByDistanceTo t sec.adults).take CHUNK_ADULT_COPY_COUNT).length)
      (sortByDistanceTo t sec.elders)
    unfold CHUNK_COPY_COUNT CHUNK_ADULT_COPY_COUNT at *
    omega
  · next hlt =>
    unfold CHUNK_COPY_COUNT CHUNK_ADULT_COPY_COUNT at *
    omega

/-! Invariant preservation by the four operations and by sequences. -/

theorem Inv_store_fst {st : RegState} (hI : Inv st) (sec : SectionView) (data : Blob)
    (msg : ClientMsg) (fresh : MessageId) : Inv (store sec data msg fresh st).1 := by
  unfold store
  split
  · next md hgm =>
    split
    · split
      · exact hI
      · exact hI
    · exact Inv_applyTargets _ _ _ _ hI
  · next hgm => exact Inv_applyTargets _ _ _ _ hI

theorem Inv_foldl_rch (address : BlobAddress) :
    ∀ (l : List XorName) (st : RegState), Inv st →
      Inv (l.foldl (fun s h => remove_chunk_holder address h s) st) := by
  intro l
  induction l with
  | nil => intro st hI; exact hI
  | cons h t ih =>
    intro st hI
    rw [List.foldl_cons]
    exact ih _ (Inv_rch hI address h)

theorem Inv_delete_fst {st : RegState} (hI : Inv st) (address : BlobAddress)
    (msg : ClientMsg) (fresh : MessageId) : Inv (delete address msg fresh st).1 := by
  unfold delete
  split
  · exact hI
  · next md hgm =>
    split
    · exact hI
    · exact Inv_foldl_rch _ _ _ hI

theorem duplicate_chunks_fst (env : ExternalFns) (sec : SectionView) (node : XorName)
    (st : RegState) : (duplicate_chunks env sec node st).1 = (remove_holder node st).1 := rfl

theorem Inv_step {st : RegState} (hI : Inv st) (op : Op) : Inv (step st op) := by
  cases op with
  | storeOp sec data msg fresh => exact Inv_store_fst hI sec data msg fresh
  | deleteOp address msg fresh => exact Inv_delete_fst hI address msg fresh
  | dupOp env sec node =>
    show Inv (duplicate_chunks env sec node st).1
    rw [duplicate_chunks_fst]
    exact Inv_remove_holder hI node
  | updateOp address holder result message_id => exact Inv_upd hI address holder result message_id

theorem Inv_initState : Inv initState := by
  refine ⟨?_, ?_, ?_⟩
  · intro n a
    simp [metaHolders, holderChunks, initState]
  · intro a md h
    exact Option.noConfusion h
  · intro n hm h
    exact Option.noConfusion h

theorem Inv_foldl_step : ∀ (ops : List Op) (st : RegState), Inv st →
    Inv (ops.foldl step st) := by
  intro ops
  induction ops with
  | nil => intro st hI; exact hI
  | cons op t ih =>
    intro st hI
    rw [List.foldl_cons]
    exact ih _ (Inv_step hI op)

theorem Inv_execOps (ops : List Op) : Inv (execOps ops) :=
  Inv_foldl_step ops initState Inv_initState

/-! The replica-count bound under store, delete and duplicate_chunks. -/

theorem cardBound_store {st : RegState} (hcb : cardBound st) (sec : SectionView)
    (data : Blob) (msg : ClientMsg) (fresh : MessageId) :
    cardBound (store sec data msg fresh st).1 := by
  unfold store
  split
  · next md hgm =>
    split
    · split
      · exact hcb
      · exact hcb
    · next hc =>
      dsimp only
      intro b
      rw [metaHolders_applyTargets, sortedList_toFinset]
      by_cases hba : b = data.address
      · subst hba
        rw [if_pos rfl, metaHolders_of_some (gm_some_iff.mp hgm).1,
          Finset.union_eq_right.mpr (addUpTo_subset _ _)]
        refine addUpTo_card _ _ ?_
        have hca := hcb data.address
        rw [metaHolders_of_some (gm_some_iff.mp hgm).1] at hca
        exact hca
      · rw [if_neg hba]
        exact hcb b
  · next hgm =>
    dsimp only
    intro b
    rw [metaHolders_applyTargets, sortedList_toFinset]
    by_cases hba : b = data.address
    · subst hba
      rw [if_pos rfl, metaHolders_of_gm_none hgm, Finset.empty_union]
      exact le_trans (List.toFinset_card_le _) (ghfc_length_le st sec data.name)
    · rw [if_neg hba]
      exact hcb b

theorem metaHolders_foldl_rch_subset (address : BlobAddress) :
    ∀ (l : List XorName) (st : RegState) (b : BlobAddress),
      metaHolders (l.foldl (fun s h => remove_chunk_holder address h s) st) b ⊆
        metaHolders st b := by
  intro l
  induction l with
  | nil => intro st b; exact Finset.Subset.refl _
  | cons h t ih =>
    intro st b
    rw [List.foldl_cons]
    refine Finset.Subset.trans (ih _ b) ?_
    rw [metaHolders_rch]
    by_cases hba : b = address
    · subst hba
      rw [if_pos rfl]
      exact Finset.erase_subset _ _
    · rw [if_neg hba]

theorem cardBound_delete {st : RegState} (hcb : cardBound st) (address : BlobAddress)
    (msg : ClientMsg) (fresh : MessageId) : cardBound (delete address msg fresh st).1 := by
  unfold delete
  split
  · exact hcb
  · next md hgm =>
    split
    · exact hcb
    · intro b
      exact le_trans
        (Finset.card_le_card (metaHolders_foldl_rch_subset address _ st b)) (hcb b)

theorem cardBound_dup {st : RegState} (hcb : cardBound st) (env : ExternalFns)
    (sec : SectionView) (node : XorName) :
    cardBound (duplicate_chunks env sec node st).1 := by
  rw [duplicate_chunks_fst]
  intro b
  rw [metaHolders_remove_holder]
  by_cases hb : b ∈ holderChunks st node
  · rw [if_pos hb]
    exact le_trans (Finset.card_le_card (Finset.erase_subset _ _)) (hcb b)
  · rw [if_neg hb]
    exact hcb b

theorem cardBound_step {st : RegState} (hcb : cardBound st) {op : Op}
    (hop : op.isUpdate = false) : cardBound (step st op) := by
  cases op with
  | storeOp sec data msg fresh => exact cardBound_store hcb sec data msg fresh
  | deleteOp address msg fresh => exact cardBound_delete hcb address msg fresh
  | dupOp env sec node => exact cardBound_dup hcb env sec node
  | updateOp address holder result message_id => exact Bool.noConfusion hop

theorem cardBound_initState : cardBound initState := by
  intro a
  show (metaHolders initState a).card ≤ CHUNK_COPY_COUNT
  rw [metaHolders_of_none (rfl : initState.metadata a = none)]
  simp [CHUNK_COPY_COUNT]

theorem cardBound_foldl_step : ∀ (ops : List Op) (st : RegState), cardBound st →
    (∀ op ∈ ops, op.isUpdate = false) → cardBound (ops.foldl step st) := by
  intro ops
  induction ops with
  | nil => intro st hcb _; exact hcb
  | cons op t ih =>
    intro st hcb hops
    rw [List.foldl_cons]
    exact ih _ (cardBound_step hcb (hops op (List.mem_cons_self op t)))
      (fun o ho => hops o (List.mem_cons.mpr (Or.inr ho)))

theorem cardBound_execOps (ops : List Op) (hops : ∀ op ∈ ops, op.isUpdate = false) :
    cardBound (execOps ops) :=
  cardBound_foldl_step ops initState cardBound_initState hops

/-! ## Claim theorems -/

/-- Claim C1: for every sequence of BlobRegister operations (store,
delete, duplicate_chunks, update_holders) in which every database write
succeeds (writes always succeed in this embedding of the pickledb
stores), and for every node identifier and blob address, the two indices
remain mutual inverses: the node is in `metadata[addr].holders` if and
only if `addr` is in `holders[node].chunks`. -/
theorem index_symmetry (ops : List Op) (node : XorName) (addr : BlobAddress) :
    node ∈ metaHolders (execOps ops) addr ↔ addr ∈ holderChunks (execOps ops) node :=
  (Inv_execOps ops).1 node addr

/-- Claim C2 as stated is false: `update_holders` inserts a holder
unconditionally, so five `update_holders` calls for one address push the
persisted holder set to cardinality 5, exceeding `CHUNK_COPY_COUNT`. -/
theorem replica_bound_counterexample :
    ¬ (∀ (ops : List Op) (a : BlobAddress), ((execOps ops).metadata a).isSome = true →
        1 ≤ (metaHolders (execOps ops) a).card ∧
          (metaHolders (execOps ops) a).card ≤ CHUNK_COPY_COUNT) := by
  intro hAll
  have h5 := hAll
    [Op.updateOp (BlobAddress.pub 0) 1 none 0,
      Op.updateOp (BlobAddress.pub 0) 2 none 0,
      Op.updateOp (BlobAddress.pub 0) 3 none 0,
      Op.updateOp (BlobAddress.pub 0) 4 none 0,
      Op.updateOp (BlobAddress.pub 0) 5 none 0]
    (BlobAddress.pub 0) (by decide)
  have hcard : (metaHolders (execOps
      [Op.updateOp (BlobAddress.pub 0) 1 none 0,
        Op.updateOp (BlobAddress.pub 0) 2 none 0,
        Op.updateOp (BlobAddress.pub 0) 3 none 0,
        Op.updateOp (BlobAddress.pub 0) 4 none 0,
        Op.updateOp (BlobAddress.pub 0) 5 none 0]) (BlobAddress.pub 0)).card = 5 := by
    decide
  rw [hcard] at h5
  exact absurd h5.2 (by decide)

/-- Claim C2 (amended): for every state reachable by a sequence of store,
delete and duplicate_chunks operations (no update_holders), every
persisted ChunkMetadata entry has a holder set with cardinality at least
1 and at most `CHUNK_COPY_COUNT` (4); with `update_holders` included only
the lower bound holds, since `update_holders` can push the cardinality
above 4. -/
theorem replica_bound :
    (∀ (ops : List Op), (∀ op ∈ ops, op.isUpdate = false) → ∀ a : BlobAddress,
        ((execOps ops).metadata a).isSome = true →
          1 ≤ (metaHolders (execOps ops) a).card ∧
            (metaHolders (execOps ops) a).card ≤ CHUNK_COPY_COUNT)
  ∧ (∀ (ops : List Op) (a : BlobAddress), ((execOps ops).metadata a).isSome = true →
        1 ≤ (metaHolders (execOps ops) a).card) := by
  have lower : ∀ (ops : List Op) (a : BlobAddress),
      ((execOps ops).metadata a).isSome = true →
        1 ≤ (metaHolders (execOps ops) a).card := by
    intro ops a hsome
    obtain ⟨md, hmd⟩ := Option.isSome_iff_exists.mp hsome
    have hne := (Inv_execOps ops).2.1 a md hmd
    rw [metaHolders_of_some hmd]
    exact Nat.one_le_iff_ne_zero.mpr
      (fun h0 => hne (Finset.card_eq_zero.mp h0))
  refine ⟨?_, lower⟩
  intro ops hops a hsome
  exact ⟨lower ops a hsome, cardBound_execOps ops hops a⟩

/-- Witness for the amended claim C2 at a concrete store run. -/
theorem replica_bound_witness :
    (∀ op ∈ [Op.storeOp ⟨[1, 2, 3], [9]⟩ (Blob.pubBlob 0 []) ⟨7, 2⟩ 5],
        op.isUpdate = false) ∧
    ((execOps [Op.storeOp ⟨[1, 2, 3], [9]⟩ (Blob.pubBlob 0 []) ⟨7, 2⟩ 5]).metadata
        (BlobAddress.pub 0)).isSome = true ∧
    (1 ≤ (metaHolders (execOps [Op.storeOp ⟨[1, 2, 3], [9]⟩ (Blob.pubBlob 0 []) ⟨7, 2⟩ 5])
        (BlobAddress.pub 0)).card ∧
      (metaHolders (execOps [Op.storeOp ⟨[1, 2, 3], [9]⟩ (Blob.pubBlob 0 []) ⟨7, 2⟩ 5])
        (BlobAddress.pub 0)).card ≤ CHUNK_COPY_COUNT) :=
  ⟨by decide, by decide,
    replica_bound.1 [Op.storeOp ⟨[1, 2, 3], [9]⟩ (Blob.pubBlob 0 []) ⟨7, 2⟩ 5]
      (by decide) (BlobAddress.pub 0) (by decide)⟩

/-- Claim C5: when metadata for the written address already has exactly
`CHUNK_COPY_COUNT` holders, a Public write is a no-op returning no error
and no outbound message with the state unchanged, while a Private write
sends a `DataExists` command error back to the originator (correlation id
is the inbound id). -/
theorem store_at_full_replication (sec : SectionView) (data : Blob) (msg : ClientMsg)
    (fresh : MessageId) (st : RegState)
    (hpresent : (st.metadata data.address).isSome = true)
    (hcard : (metaHolders st data.address).card = CHUNK_COPY_COUNT) :
    store sec data msg fresh st =
      (st, if data.is_pub then none
        else some (.send (.cmdError .dataExists fresh msg.origin msg.id))) := by
  obtain ⟨md, hmd⟩ := Option.isSome_iff_exists.mp hpresent
  rw [metaHolders_of_some hmd] at hcard
  have hne : md.holders ≠ ∅ := by
    intro h0
    rw [h0, Finset.card_empty] at hcard
    exact absurd hcard (by decide)
  have hgm : get_metadata_for st data.address = some md := gm_some_iff.mpr ⟨hmd, hne⟩
  unfold store
  split
  · next md' hgm' =>
    rw [hgm] at hgm'
    injection hgm' with hgm'
    subst hgm'
    rw [if_pos hcard]
    by_cases hp : data.is_pub
    · rw [if_pos hp, if_pos hp]
    · rw [if_neg hp, if_neg hp]
  · next hgm' =>
    rw [hgm] at hgm'
    exact Option.noConfusion hgm'

/-- Witness for claim C5: a second Public write of a fully replicated
blob leaves the register untouched and emits nothing. -/
theorem store_at_full_replication_witness :
    ((execOps [Op.storeOp ⟨[1, 2, 3], [9]⟩ (Blob.pubBlob 0 []) ⟨7, 2⟩ 5]).metadata
        (Blob.pubBlob 0 []).address).isSome = true ∧
    (metaHolders (execOps [Op.storeOp ⟨[1, 2, 3], [9]⟩ (Blob.pubBlob 0 []) ⟨7, 2⟩ 5])
        (Blob.pubBlob 0 []).address).card = CHUNK_COPY_COUNT ∧
    store ⟨[1, 2, 3], [9]⟩ (Blob.pubBlob 0 []) ⟨8, 3⟩ 6
        (execOps [Op.storeOp ⟨[1, 2, 3], [9]⟩ (Blob.pubBlob 0 []) ⟨7, 2⟩ 5]) =
      (execOps [Op.storeOp ⟨[1, 2, 3], [9]⟩ (Blob.pubBlob 0 []) ⟨7, 2⟩ 5], none) :=
  ⟨by decide, by decide, by
    have h := store_at_full_replication ⟨[1, 2, 3], [9]⟩ (Blob.pubBlob 0 []) ⟨8, 3⟩ 6
      (execOps [Op.storeOp ⟨[1, 2, 3], [9]⟩ (Blob.pubBlob 0 []) ⟨7, 2⟩ 5])
      (by decide) (by decide)
    simpa [Blob.is_pub] using h⟩

/-- Claim C3 as stated is false: a Private write that proceeds to
placement (here because only two holders exist, fewer than
`CHUNK_COPY_COUNT`) overwrites the recorded owner with the new
originator, so a second write from key 200 replaces owner 100. -/
theorem owner_immutability_counterexample :
    ((execOps [Op.storeOp ⟨[1, 2], []⟩ (Blob.privBlob 0 [] 100) ⟨7, 100⟩ 5]).metadata
        (BlobAddress.unpub 0)).map ChunkMetadata.owner = some (some 100) ∧
    ((execOps [Op.storeOp ⟨[1, 2], []⟩ (Blob.privBlob 0 [] 100) ⟨7, 100⟩ 5,
        Op.storeOp ⟨[1, 2], []⟩ (Blob.privBlob 0 [] 100) ⟨8, 200⟩ 6]).metadata
        (BlobAddress.unpub 0)).map ChunkMetadata.owner = some (some 200) ∧
    (100 : PublicKey) ≠ 200 :=
  ⟨by decide, by decide, by decide⟩

/-- Claim C3 (amended): once metadata for an address holds exactly
`CHUNK_COPY_COUNT` holders, no subsequent `BlobWrite::New` (of any blob,
from any originator) changes that owner field; with fewer holders a
Private write that reaches placement overwrites the owner with the new
originator. -/
theorem owner_immutable_at_full_replication (sec : SectionView) (data : Blob)
    (msg : ClientMsg) (fresh : MessageId) (st : RegState) (a : BlobAddress)
    (hpresent : (st.metadata a).isSome = true)
    (hcard : (metaHolders st a).card = CHUNK_COPY_COUNT) :
    ((store sec data msg fresh st).1.metadata a).map ChunkMetadata.owner =
      (st.metadata a).map ChunkMetadata.owner := by
  by_cases hda : data.address = a
  · subst hda
    obtain ⟨md, hmd⟩ := Option.isSome_iff_exists.mp hpresent
    rw [metaHolders_of_some hmd] at hcard
    have hne : md.holders ≠ ∅ := by
      intro h0
      rw [h0, Finset.card_empty] at hcard
      exact absurd hcard (by decide)
    have hgm : get_metadata_for st data.address = some md := gm_some_iff.mpr ⟨hmd, hne⟩
    unfold store
    split
    · next md' hgm' =>
      rw [hgm] at hgm'
      injection hgm' with hgm'
      subst hgm'
      rw [if_pos hcard]
      by_cases hp : data.is_pub
      · rw [if_pos hp]
      · rw [if_neg hp]
    · next hgm' =>
      rw [hgm] at hgm'
      exact Option.noConfusion hgm'
  · have hne : a ≠ data.address := fun h => hda h.symm
    unfold store
    split
    · next md hgm =>
      split
      · split
        · rfl
        · rfl
      · dsimp only
        rw [applyTargets_metadata_other data.address msg.origin _ st a hne]
    · next hgm =>
      dsimp only
      rw [applyTargets_metadata_other data.address msg.origin _ st a hne]

/-- Witness for the amended claim C3: after a Private blob reaches full
replication with owner 100, a further Private write from key 200 leaves
the owner field untouched. -/
theorem owner_immutable_witness :
    ((execOps [Op.storeOp ⟨[1, 2, 3], [9]⟩ (Blob.privBlob 0 [] 100) ⟨7, 100⟩ 5]).metadata
        (BlobAddress.unpub 0)).isSome = true ∧
    (metaHolders (execOps [Op.storeOp ⟨[1, 2, 3], [9]⟩ (Blob.privBlob 0 [] 100) ⟨7, 100⟩ 5])
        (BlobAddress.unpub 0)).card = CHUNK_COPY_COUNT ∧
    ((store ⟨[1, 2, 3], [9]⟩ (Blob.privBlob 0 [] 100) ⟨8, 200⟩ 6
        (execOps [Op.storeOp ⟨[1, 2, 3], [9]⟩ (Blob.privBlob 0 [] 100) ⟨7, 100⟩ 5])).1.metadata
        (BlobAddress.unpub 0)).map ChunkMetadata.owner =
      ((execOps [Op.storeOp ⟨[1, 2, 3], [9]⟩ (Blob.privBlob 0 [] 100) ⟨7, 100⟩ 5]).metadata
        (BlobAddress.unpub 0)).map ChunkMetadata.owner :=
  ⟨by decide, by decide,
    owner_immutable_at_full_replication ⟨[1, 2, 3], [9]⟩ (Blob.privBlob 0 [] 100) ⟨8, 200⟩ 6
      (execOps [Op.storeOp ⟨[1, 2, 3], [9]⟩ (Blob.privBlob 0 [] 100) ⟨7, 100⟩ 5])
      (BlobAddress.unpub 0) (by decide) (by decide)⟩

/-- Claim C4: the dispatcher panics instead of returning `Unknown` when
no rule matches.  An envelope addressed to the local node whose most
recent sender is a Node with Adult duty matches none of the eight rules,
so evaluation reaches `should_run_at_rewards`, whose body is
`unimplemented!()` (modelled by `none`); the `Unknown` fallback of
`evaluate` is unreachable. -/
theorem evaluate_panics_when_no_rule_matches :
    evaluate ⟨0, fun _ => true⟩
      ⟨Payload.dataCmd true, MsgSender.node Duty.adult, DstAddress.node 0⟩ = none := by
  decide

/-- Claim C6 as stated is false: the placement computation never consults
the full-adult set (the source marks the `full_adults` database
`#[allow(unused)]`), so a full adult that is among the closest Adults is
still chosen as a target, unlike the spec-modelled rule with the
exclusion. -/
theorem placement_full_adult_counterexample :
    1 ∈ get_holders_for_chunk ⟨fun _ => none, fun _ => none, {1}⟩ ⟨[1, 2, 3, 4], [9]⟩ 0 ∧
    1 ∈ (⟨fun _ => none, fun _ => none, {1}⟩ : RegState).full_adults ∧
    get_holders_for_chunk ⟨fun _ => none, fun _ => none, {1}⟩ ⟨[1, 2, 3, 4], [9]⟩ 0 ≠
      spec_targets_excluding (⟨fun _ => none, fun _ => none, {1}⟩ : RegState).full_adults
        ⟨[1, 2, 3, 4], [9]⟩ 0 :=
  ⟨by decide, by decide, by decide⟩

/-- Claim C6 (amended): for every write `New(blob)` with no existing
metadata, the target holder set begins with the `CHUNK_ADULT_COPY_COUNT`
Adults closest by XOR distance to the blob address (the full-adult set is
never consulted) and, if fewer than `CHUNK_COPY_COUNT` targets result,
appends the closest Elders until the count of 4 is met. -/
theorem placement_matches_spec_without_exclusion :
    (∀ (st : RegState) (sec : SectionView) (data : Blob) (msg : ClientMsg)
        (fresh : MessageId), get_metadata_for st data.address = none →
      (store sec data msg fresh st).2 =
        some (.sendToAdults (spec_targets sec data.name).toFinset msg.id))
  ∧ (∀ (st : RegState) (sec : SectionView) (t : XorName),
      get_holders_for_chunk st sec t = spec_targets sec t) := by
  constructor
  · intro st sec data msg fresh hgm
    unfold store
    split
    · next md hgm' =>
      rw [hgm] at hgm'
      exact Option.noConfusion hgm'
    · rfl
  · intro st sec t
    rfl

/-- Witness for the amended claim C6: a write with no metadata forwards
to exactly the spec-computed target set. -/
theorem placement_matches_spec_witness :
    get_metadata_for initState (Blob.pubBlob 0 []).address = none ∧
    (store ⟨[1, 2, 3, 4], [9]⟩ (Blob.pubBlob 0 []) ⟨7, 2⟩ 5 initState).2 =
      some (.sendToAdults (spec_targets ⟨[1, 2, 3, 4], [9]⟩ (Blob.pubBlob 0 []).name).toFinset 7) :=
  ⟨by decide,
    placement_matches_spec_without_exclusion.1 initState ⟨[1, 2, 3, 4], [9]⟩
      (Blob.pubBlob 0 []) ⟨7, 2⟩ 5 (by decide)⟩

/-- Claim C7: the Adult store path checks ownership before existence: a
Private blob whose owner differs from the envelope origin is rejected
with `InvalidOwners(origin)` and no bytes are written, whether or not the
address is present; a store that passes the ownership check but finds
the address present is rejected with `DataExists` and the stored bytes
are left unchanged (the state is returned untouched in both cases). -/
theorem cs_store_ownership_then_existence (env : ExternalFns) (data : Blob)
    (msg_id : MessageId) (origin : EndUser) (cs : ChunkStorage) :
    (∀ o : PublicKey, data.is_private = true → data.owner = some o → o ≠ origin.id →
      cs_store env data msg_id origin cs =
        (cs, .send ⟨.cmdError (.invalidOwners origin.id) (env.in_response_to msg_id) msg_id,
          false, origin⟩))
  ∧ ((data.is_private = false ∨ data.owner = some origin.id) →
      (cs.chunks data.address).isSome = true →
      cs_store env data msg_id origin cs =
        (cs, .send ⟨.cmdError .dataExists (env.in_response_to msg_id) msg_id,
          false, origin⟩)) := by
  constructor
  · intro o hpriv howner hne
    cases data with
    | pubBlob n v => simp [Blob.is_private, Blob.is_pub] at hpriv
    | privBlob n v ow =>
      have how : ow = o := by
        have : some ow = some o := howner
        injection this
      subst how
      have hb : (ow != origin.id) = true := bne_iff_ne.mpr hne
      unfold cs_store try_store
      simp only [Blob.is_private, Blob.is_pub, Blob.owner, Bool.not_false, if_true, hb]
  · intro hok hpresent
    have hcheck :
        (if data.is_private then
          match data.owner with
          | none => Except.error (CsError.invalidOwners origin.id)
          | some data_owner =>
            if data_owner != origin.id then Except.error (CsError.invalidOwners origin.id)
            else Except.ok ()
        else Except.ok ()) = Except.ok () := by
      rcases hok with hpub | hown
      · rw [if_neg (by rw [hpub]; exact Bool.false_ne_true)]
      · cases data with
        | pubBlob n v => rfl
        | privBlob n v ow =>
          have how : ow = origin.id := by
            have : some ow = some origin.id := hown
            injection this
          subst how
          simp [Blob.is_private, Blob.is_pub, Blob.owner]
    unfold cs_store try_store
    rw [hcheck, if_pos hpresent]

/-- Witness for claim C7: an ill-owned Private write to an empty store is
rejected with `InvalidOwners` (address not present), and a well-owned
write to a present address is rejected with `DataExists`. -/
theorem cs_store_checks_witness :
    ((Blob.privBlob 0 [] 100).is_private = true ∧
      (Blob.privBlob 0 [] 100).owner = some 100 ∧ (100 : PublicKey) ≠ 200 ∧
      cs_store ⟨fun a b => a + b, fun i => i + 1⟩ (Blob.privBlob 0 [] 100) 7 ⟨200⟩
          ⟨5, fun _ => none⟩ =
        (⟨5, fun _ => none⟩, .send ⟨.cmdError (.invalidOwners 200) 8 7, false, ⟨200⟩⟩))
  ∧ (((⟨5, updF (fun _ => none) (BlobAddress.unpub 0)
          (some (Blob.privBlob 0 [] 100))⟩ : ChunkStorage).chunks
        (Blob.privBlob 0 [] 100).address).isSome = true ∧
      cs_store ⟨fun a b => a + b, fun i => i + 1⟩ (Blob.privBlob 0 [] 100) 7 ⟨100⟩
          ⟨5, updF (fun _ => none) (BlobAddress.unpub 0)
            (some (Blob.privBlob 0 [] 100))⟩ =
        (⟨5, updF (fun _ => none) (BlobAddress.unpub 0)
            (some (Blob.privBlob 0 [] 100))⟩,
          .send ⟨.cmdError .dataExists 8 7, false, ⟨100⟩⟩)) := by
  constructor
  · refine ⟨by decide, by decide, by decide, ?_⟩
    exact (cs_store_ownership_then_existence ⟨fun a b => a + b, fun i => i + 1⟩
      (Blob.privBlob 0 [] 100) 7 ⟨200⟩ ⟨5, fun _ => none⟩).1 100 (by decide) (by decide)
      (by decide)
  · refine ⟨by decide, ?_⟩
    exact (cs_store_ownership_then_existence ⟨fun a b => a + b, fun i => i + 1⟩
      (Blob.privBlob 0 [] 100) 7 ⟨100⟩ _).2 (Or.inr (by decide)) (by decide)

/-- Claim C8 as stated is false on the Elder paths: for one and the same
inbound envelope (message id 7) the outbound error id is whatever
`MessageId::new()` draws (here 5 in one run and 6 in another), so the
outbound id is not derived from the inbound message id.  The correlation
id equals the inbound id (7) in both runs. -/
theorem error_reply_id_counterexample :
    (delete (BlobAddress.pub 0) ⟨7, 2⟩ 5 initState).2 =
      some (.send (.cmdError .noSuchData 5 2 7)) ∧
    (delete (BlobAddress.pub 0) ⟨7, 2⟩ 6 initState).2 =
      some (.send (.cmdError .noSuchData 6 2 7)) ∧
    (5 : MessageId) ≠ 6 :=
  ⟨rfl, rfl, by decide⟩

/-- Claim C8 (amended): every user-visible error on the write, delete and
read paths carries a correlation id equal to the inbound message id; on
the Adult ChunkStorage paths the outbound id is
`MessageId::in_response_to(inbound)` (derived from the inbound id), but
on the Elder BlobRegister paths the outbound id is a freshly drawn
`MessageId::new()`, independent of the inbound id. -/
theorem error_reply_ids (sec : SectionView) (st : RegState) (a : BlobAddress)
    (data : Blob) (msg : ClientMsg) (fresh : MessageId) (env : ExternalFns)
    (msg_id : MessageId) (origin : EndUser) (cs : ChunkStorage) (address : BlobAddress) :
    (∀ m : ElderMsg, (store sec data msg fresh st).2 = some (.send m) →
        m.corrId = msg.id ∧ m.msgId = fresh)
  ∧ (∀ m : ElderMsg, (delete a msg fresh st).2 = some (.send m) →
        m.corrId = msg.id ∧ m.msgId = fresh)
  ∧ (∀ m : ElderMsg, get a msg fresh st = some (.send m) →
        m.corrId = msg.id ∧ m.msgId = fresh)
  ∧ (∀ o : OutgoingMsg, (cs_store env data msg_id origin cs).2 = .send o →
        o.msg.corrId = msg_id ∧ o.msg.msgId = env.in_response_to msg_id)
  ∧ (∀ o : OutgoingMsg, (cs_delete env address msg_id origin cs).2 = .send o →
        o.msg.corrId = msg_id ∧ o.msg.msgId = env.in_response_to msg_id)
  ∧ (∀ o : OutgoingMsg, cs_get env address msg_id origin cs = .send o →
        o.msg.corrId = msg_id ∧ o.msg.msgId = env.in_response_to msg_id) := by
  refine ⟨?_, ?_, ?_, ?_, ?_, ?_⟩
  · intro m hm
    unfold store at hm
    split at hm
    · split at hm
      · split at hm
        · exact Option.noConfusion hm
        · injection hm with hm
          injection hm with hm
          subst hm
          exact ⟨rfl, rfl⟩
      · dsimp only at hm
        injection hm with hm
        injection hm
    · dsimp only at hm
      injection hm with hm
      injection hm
  · intro m hm
    unfold delete at hm
    split at hm
    · injection hm with hm
      injection hm with hm
      subst hm
      exact ⟨rfl, rfl⟩
    · split at hm
      · injection hm with hm
        injection hm with hm
        subst hm
        exact ⟨rfl, rfl⟩
      · injection hm with hm
        injection hm
  · intro m hm
    unfold get at hm
    split at hm
    · injection hm with hm
      injection hm with hm
      subst hm
      exact ⟨rfl, rfl⟩
    · split at hm
      · injection hm with hm
        injection hm with hm
        subst hm
        exact ⟨rfl, rfl⟩
      · injection hm with hm
        injection hm
  · intro o ho
    unfold cs_store at ho
    split at ho
    · injection ho with ho
      subst ho
      exact ⟨rfl, rfl⟩
    · exact NodeDuty.noConfusion ho
  · intro o ho
    unfold cs_delete at ho
    split at ho
    · exact NodeDuty.noConfusion ho
    · dsimp only at ho
      split at ho
      · injection ho with ho
        subst ho
        exact ⟨rfl, rfl⟩
      · exact NodeDuty.noConfusion ho
  · intro o ho
    unfold cs_get at ho
    injection ho with ho
    subst ho
    exact ⟨rfl, rfl⟩

/-- Witness for the amended claim C8 on the Elder delete path. -/
theorem error_reply_ids_witness :
    (delete (BlobAddress.pub 0) ⟨7, 2⟩ 5 initState).2 =
      some (.send (.cmdError .noSuchData 5 2 7)) ∧
    ((ElderMsg.cmdError .noSuchData 5 2 7).corrId = 7 ∧
      (ElderMsg.cmdError .noSuchData 5 2 7).msgId = 5) :=
  ⟨rfl,
    (error_reply_ids ⟨[], []⟩ initState (BlobAddress.pub 0) (Blob.pubBlob 0 [])
      ⟨7, 2⟩ 5 ⟨fun a b => a + b, fun i => i + 1⟩ 0 ⟨0⟩ ⟨0, fun _ => none⟩
      (BlobAddress.pub 0)).2.1 (ElderMsg.cmdError .noSuchData 5 2 7) rfl⟩

/-- Claim C9: every `DuplicateChunk` command emitted for an address and a
chosen new holder carries message id
`sha3_256(address.name ∥ new_holder)`; consequently two emissions for the
same `(address, new_holder)` pair (even from different states, section
views or fetch-from sets) carry the same message id. -/
theorem duplication_msg_id (env : ExternalFns) (sec : SectionView) (st : RegState)
    (addr : BlobAddress) (cur : Finset XorName) :
    (∀ c ∈ get_duplication_msgs env sec st addr cur,
        c.id = env.sha3_concat addr.name c.new_holder ∧ c.address = addr ∧
          c.fetch_from_holders = cur)
  ∧ (∀ (sec2 : SectionView) (st2 : RegState) (cur2 : Finset XorName) (c c2 : DupCmd),
        c ∈ get_duplication_msgs env sec st addr cur →
        c2 ∈ get_duplication_msgs env sec2 st2 addr cur2 →
        c.new_holder = c2.new_holder → c.id = c2.id) := by
  have main : ∀ (sec1 : SectionView) (st1 : RegState) (cur1 : Finset XorName),
      ∀ c ∈ get_duplication_msgs env sec1 st1 addr cur1,
        c.id = env.sha3_concat addr.name c.new_holder ∧ c.address = addr ∧
          c.fetch_from_holders = cur1 := by
    intro sec1 st1 cur1 c hc
    unfold get_duplication_msgs at hc
    obtain ⟨nh, _, rfl⟩ := List.mem_map.mp hc
    exact ⟨rfl, rfl, rfl⟩
  refine ⟨main sec st cur, ?_⟩
  intro sec2 st2 cur2 c c2 hc hc2 hnh
  rw [(main sec st cur c hc).1, (main sec2 st2 cur2 c2 hc2).1, hnh]

/-- Witness for claim C9 at a concrete duplication emission. -/
theorem duplication_msg_id_witness :
    (⟨1, 1, BlobAddress.pub 0, ∅⟩ : DupCmd) ∈
      get_duplication_msgs ⟨fun a b => 1000 * a + b, fun i => i + 1⟩ ⟨[1, 2, 3], [9]⟩
        initState (BlobAddress.pub 0) ∅ ∧
    ((⟨1, 1, BlobAddress.pub 0, ∅⟩ : DupCmd).id =
        (⟨fun a b => 1000 * a + b, fun i => i + 1⟩ : ExternalFns).sha3_concat
          (BlobAddress.pub 0).name (⟨1, 1, BlobAddress.pub 0, ∅⟩ : DupCmd).new_holder ∧
      (⟨1, 1, BlobAddress.pub 0, ∅⟩ : DupCmd).address = BlobAddress.pub 0 ∧
      (⟨1, 1, BlobAddress.pub 0, ∅⟩ : DupCmd).fetch_from_holders = ∅) :=
  ⟨by decide,
    (duplication_msg_id ⟨fun a b => 1000 * a + b, fun i => i + 1⟩ ⟨[1, 2, 3], [9]⟩
      initState (BlobAddress.pub 0) ∅).1 ⟨1, 1, BlobAddress.pub 0, ∅⟩ (by decide)⟩

/-! Characterisation of the `delete` removal loop, used for claim C10. -/

theorem rch_metadata_other {a : BlobAddress} {h : XorName} {st : RegState}
    {b : BlobAddress} (hba : b ≠ a) :
    (remove_chunk_holder a h st).metadata b = st.metadata b := by
  cases hgm : get_metadata_for st a with
  | none => rw [rch_of_none hgm]
  | some md =>
    rw [rch_of_some hgm, rchm_metadata_other hba, congrFun (rchh_metadata a h st) b]

theorem delete_foldl (address : BlobAddress) :
    ∀ (l : List XorName) (st : RegState) (md : ChunkMetadata),
      l.Nodup → st.metadata address = some md → md.holders = l.toFinset → l ≠ [] →
      (l.foldl (fun s h => remove_chunk_holder address h s) st).metadata address = none ∧
      (∀ n, holderChunks (l.foldl (fun s h => remove_chunk_holder address h s) st) n =
          if n ∈ l then (holderChunks st n).erase address else holderChunks st n) ∧
      (∀ b, b ≠ address →
        (l.foldl (fun s h => remove_chunk_holder address h s) st).metadata b =
          st.metadata b) := by
  intro l
  induction l with
  | nil => intro st md _ _ _ hne; exact absurd rfl hne
  | cons h t ih =>
    intro st md hnd hmd hset hne
    have hndc := List.nodup_cons.mp hnd
    have hgm : get_metadata_for st address = some md := by
      refine gm_some_iff.mpr ⟨hmd, ?_⟩
      rw [hset, List.toFinset_cons]
      exact Finset.insert_ne_empty _ _
    have herase : md.holders.erase h = t.toFinset := by
      rw [hset, List.toFinset_cons,
        Finset.erase_insert (fun hmem => hndc.1 (List.mem_toFinset.mp hmem))]
    rw [List.foldl_cons]
    by_cases ht : t = []
    · subst ht
      have h0 : md.holders.erase h = ∅ := by rw [herase]; rfl
      refine ⟨?_, ?_, ?_⟩
      · show (remove_chunk_holder address h st).metadata address = none
        rw [rch_of_some hgm, rchm_metadata_self, if_pos h0]
      · intro n
        show holderChunks (remove_chunk_holder address h st) n = _
        rw [holderChunks_rch hgm n]
        by_cases hn : n = h
        · subst hn
          rw [if_pos rfl, if_pos (List.mem_cons_self n [])]
        · rw [if_neg hn, if_neg (by
            intro hmem
            rcases List.mem_cons.mp hmem with h1 | h1
            · exact hn h1
            · exact absurd h1 (List.not_mem_nil n))]
      · intro b hb
        exact rch_metadata_other hb
    · have ht' : t.toFinset ≠ ∅ := by
        intro h0
        exact ht ((List.toFinset_eq_empty_iff t).mp h0)
      have h0 : md.holders.erase h ≠ ∅ := by rw [herase]; exact ht'
      have hst1md : (remove_chunk_holder address h st).metadata address =
          some ⟨md.holders.erase h, md.owner⟩ := by
        rw [rch_of_some hgm, rchm_metadata_self, if_neg h0]
      have hIH := ih (remove_chunk_holder address h st) ⟨md.holders.erase h, md.owner⟩
        hndc.2 hst1md (by rw [herase]) ht
      refine ⟨hIH.1, ?_, ?_⟩
      · intro n
        rw [hIH.2.1 n, holderChunks_rch hgm n]
        by_cases hn : n = h
        · subst hn
          rw [if_neg (fun hmem => hndc.1 hmem), if_pos rfl,
            if_pos (List.mem_cons_self n t)]
        · rw [if_neg hn]
          by_cases hnt : n ∈ t
          · rw [if_pos hnt, if_pos (List.mem_cons.mpr (Or.inr hnt))]
          · rw [if_neg hnt, if_neg (by
              intro hmem
              rcases List.mem_cons.mp hmem with h1 | h1
              · exact hn h1
              · exact hnt h1)]
      · intro b hb
        rw [hIH.2.2 b hb, rch_metadata_other hb]

/-- Claim C10: a `DeletePrivate(addr)` request for an address whose
metadata records no owner (a Public blob) is never rejected, whatever the
originator: every holder is removed from both indices (the chunk record
is deleted outright and the address disappears from every holder record)
and the delete envelope is forwarded to the recorded holder set. -/
theorem delete_public_blob (a : BlobAddress) (msg : ClientMsg) (fresh : MessageId)
    (st : RegState) (hsymm : symmInv st)
    (hpresent : (st.metadata a).isSome = true)
    (hne : metaHolders st a ≠ ∅)
    (howner : (st.metadata a).map ChunkMetadata.owner = some none) :
    (delete a msg fresh st).2 = some (.sendToAdults (metaHolders st a) msg.id) ∧
    (delete a msg fresh st).1.metadata a = none ∧
    (∀ n, a ∉ holderChunks (delete a msg fresh st).1 n) := by
  obtain ⟨md, hmd⟩ := Option.isSome_iff_exists.mp hpresent
  rw [metaHolders_of_some hmd] at hne
  have hgm : get_metadata_for st a = some md := gm_some_iff.mpr ⟨hmd, hne⟩
  have hmdo : md.owner = none := by
    rw [hmd, Option.map_some'] at howner
    injection howner
  have hmm : ownerMismatch md.owner msg.origin = false := by rw [hmdo]; rfl
  have hfold := delete_foldl a (sortedList md.holders) st md
    (sortedList_nodup _) hmd (by rw [sortedList_toFinset]) (by
      rw [Ne, sortedList_eq_nil]
      exact hne)
  unfold delete
  split
  · next hgm' =>
    rw [hgm] at hgm'
    exact Option.noConfusion hgm'
  · next md' hgm' =>
    rw [hgm] at hgm'
    injection hgm' with hgm'
    subst hgm'
    rw [if_neg (by rw [hmm]; exact Bool.false_ne_true)]
    refine ⟨by rw [metaHolders_of_some hmd], hfold.1, ?_⟩
    intro n
    rw [hfold.2.1 n]
    by_cases hn : n ∈ sortedList md.holders
    · rw [if_pos hn]
      exact Finset.not_mem_erase a _
    · rw [if_neg hn]
      intro hmem
      have := (hsymm n a).mpr hmem
      rw [metaHolders_of_some hmd] at this
      exact hn (mem_sortedList.mpr this)

/-- Witness for claim C10: deleting a fully-public address succeeds for
an arbitrary originator, empties both indices and forwards to the
holders. -/
theorem delete_public_blob_witness :
    ((execOps [Op.storeOp ⟨[1, 2], []⟩ (Blob.pubBlob 0 []) ⟨7, 2⟩ 5]).metadata
        (BlobAddress.pub 0)).isSome = true ∧
    metaHolders (execOps [Op.storeOp ⟨[1, 2], []⟩ (Blob.pubBlob 0 []) ⟨7, 2⟩ 5])
        (BlobAddress.pub 0) ≠ ∅ ∧
    ((execOps [Op.storeOp ⟨[1, 2], []⟩ (Blob.pubBlob 0 []) ⟨7, 2⟩ 5]).metadata
        (BlobAddress.pub 0)).map ChunkMetadata.owner = some none ∧
    ((delete (BlobAddress.pub 0) ⟨8, 77⟩ 6
        (execOps [Op.storeOp ⟨[1, 2], []⟩ (Blob.pubBlob 0 []) ⟨7, 2⟩ 5])).2 =
      some (.sendToAdults (metaHolders
        (execOps [Op.storeOp ⟨[1, 2], []⟩ (Blob.pubBlob 0 []) ⟨7, 2⟩ 5])
        (BlobAddress.pub 0)) 8) ∧
    (delete (BlobAddress.pub 0) ⟨8, 77⟩ 6
        (execOps [Op.storeOp ⟨[1, 2], []⟩ (Blob.pubBlob 0 []) ⟨7, 2⟩ 5])).1.metadata
      (BlobAddress.pub 0) = none ∧
    ∀ n, BlobAddress.pub 0 ∉ holderChunks (delete (BlobAddress.pub 0) ⟨8, 77⟩ 6
        (execOps [Op.storeOp ⟨[1, 2], []⟩ (Blob.pubBlob 0 []) ⟨7, 2⟩ 5])).1 n) :=
  ⟨by decide, by decide, by decide,
    delete_public_blob (BlobAddress.pub 0) ⟨8, 77⟩ 6
      (execOps [Op.storeOp ⟨[1, 2], []⟩ (Blob.pubBlob 0 []) ⟨7, 2⟩ 5])
      (Inv_execOps [Op.storeOp ⟨[1, 2], []⟩ (Blob.pubBlob 0 []) ⟨7, 2⟩ 5]).1
      (by decide) (by decide) (by decide)⟩

end SnNode
